import Mathlib

/-!
Verification of the mystock fund-flow ingestion pipeline.

This file gives a shallow embedding of the parts of the repository that the
properties below are about, translated from the Python sources:

* `scripts/fund_flow.py` — `parse_stock_code` (code normalizer), the
  `to_float` / `to_pct` / `to_amount` coercions and the upsert logic of
  `save_to_sqlite` (store writer);
* `scripts/daily_bulk_flow.py` — `fetch_all_stock_codes` (code-universe
  loader) and the worker/aggregation logic of `run_for_date`;
* `scripts/tushare_minute_history.py` — `RateLimiter.wait`;
* `scripts/rss_fund_flow.py` — the tier-label formatting of `run_once`.

Python strings are modelled as `List Char` (`PyStr`) so that the character
level operations (strip, lower, split, slicing) can be reasoned about by
induction.  Python floats are modelled as exact rationals quantized to
IEEE-754 binary64 by round-to-nearest, ties-to-even (`fp64Round`; normal
range — subnormals, overflow and inf/nan are outside the modelled scope):
`float(str)` quantizes the exact decimal value of the literal, float
division quantizes the exact quotient, and `round(x, n)` is CPython's
correct decimal rounding of the exact binary value (ties, which arise only
when that value is exactly a half-multiple of `10^-n`, go to even),
re-quantized.  Fallible external calls (SQLite statements, HTTP fetches)
are modelled by explicit error oracles.
-/

namespace MyStock

/-- Python strings, modelled as lists of characters. -/
abbrev PyStr := List Char

/-- `str.strip()`: drop whitespace from both ends. -/
def pyStrip (s : PyStr) : PyStr :=
  ((s.dropWhile Char.isWhitespace).reverse.dropWhile Char.isWhitespace).reverse

/-- `str.lower()` (ASCII, which is all the sources use). -/
def pyLower (s : PyStr) : PyStr := s.map Char.toLower

/-- `str.upper()` (ASCII, which is all the sources use). -/
def pyUpper (s : PyStr) : PyStr := s.map Char.toUpper

/-- `c in s` for a single character, Python's containment test. -/
def pyContains (s : PyStr) (c : Char) : Bool := s.any (fun x => x = c)

/-- `s.startswith(p)`. -/
def pyStartsWith (s p : PyStr) : Bool :=
  match p, s with
  | [], _ => true
  | _ :: _, [] => false
  | c :: cs, x :: xs => c = x && pyStartsWith xs cs

/-- `s.startswith((p1, p2, ...))`: true when any listed head matches. -/
def pyStartsWithAny (s : PyStr) (ps : List PyStr) : Bool :=
  ps.any (fun p => pyStartsWith s p)

/-- `s[-n:]`, the trailing `n` characters (the whole string when shorter). -/
def takeRight (n : Nat) (s : PyStr) : PyStr := s.drop (s.length - n)

/-- `str.isdigit()`: nonempty and all digits. -/
def pyIsDigit (s : PyStr) : Bool := !s.isEmpty && s.all Char.isDigit

/-- `raw.split(".")`. -/
def splitDot : PyStr → List PyStr
  | [] => [[]]
  | c :: rest =>
    if c = '.' then [] :: splitDot rest
    else
      match splitDot rest with
      | [] => [[c]]
      | r :: rs => (c :: r) :: rs

/-- The `SH` exchange tag. -/
def exSH : PyStr := ['S', 'H']

/-- The `SZ` exchange tag. -/
def exSZ : PyStr := ['S', 'Z']

/-- The `BJ` exchange tag. -/
def exBJ : PyStr := ['B', 'J']

/-- Numeric heads mapped to Shanghai in `parse_stock_code`. -/
def shHeads : List PyStr :=
  [['6','0','0'], ['6','0','1'], ['6','0','3'], ['6','0','5'], ['6','8','8']]

/-- Numeric heads mapped to Shenzhen in `parse_stock_code`. -/
def szHeads : List PyStr :=
  [['0','0','0'], ['0','0','1'], ['0','0','2'], ['0','0','3'], ['3','0','0'], ['3','0','1']]

/-- Numeric heads tested for Beijing in `parse_stock_code` (the `688` entry is
kept from the source even though it is shadowed by the Shanghai branch). -/
def bjHeads : List PyStr :=
  [['4','3','0'], ['6','8','8'], ['8','3','0'], ['8','3','1'], ['8','3','3'],
   ['8','3','5'], ['8','3','6'], ['8','3','8'], ['8','3','9'],
   ['8','7','0'], ['8','7','1'], ['8','7','2']]

/-- The exchange inferred from a bare numeric code by the final `else` chain of
`parse_stock_code` (fund_flow.py lines 73-80). -/
def inferExchange (cleaned : PyStr) : PyStr :=
  if pyStartsWithAny cleaned shHeads then exSH
  else if pyStartsWithAny cleaned szHeads then exSZ
  else if pyStartsWithAny cleaned bjHeads then exBJ
  else exSH

/-- `market_map[exchange]` of `parse_stock_code`. -/
def marketOf (exchange : PyStr) : PyStr := pyLower exchange

/-- First phase of `parse_stock_code`: compute the `(stock, exchange)` pair
before the final validation (fund_flow.py lines 53-80). -/
def parseStockPhase1 (raw : PyStr) : Except String (PyStr × PyStr) :=
  if pyContains raw '.' then
    match splitDot raw with
    | [stockPart, exchPart] => Except.ok (takeRight 6 stockPart, pyUpper exchPart)
    | _ => Except.error ("Unrecognized stock code")
  else
    if pyStartsWith (pyLower raw) ['s','h'] || pyStartsWith (pyLower raw) ['s','z']
        || pyStartsWith (pyLower raw) ['b','j'] then
      Except.ok (takeRight 6 (raw.drop 2), pyUpper ((pyLower raw).take 2))
    else
      if pyIsDigit (takeRight 6 raw) then
        Except.ok (takeRight 6 raw, inferExchange (takeRight 6 raw))
      else
        Except.error ("Unrecognized stock code")

/-- The final validation of `parse_stock_code` (fund_flow.py lines 82-88):
the code must be exactly 6 digits and the exchange one of SH/SZ/BJ. -/
def parseStockFinish : Except String (PyStr × PyStr) →
    Except String (PyStr × PyStr × PyStr)
  | Except.error e => Except.error e
  | Except.ok (stock, exchange) =>
    if stock.isEmpty || !(stock.length == 6) || !pyIsDigit stock then
      Except.error ("Unrecognized stock code")
    else if !(exchange == exSH || exchange == exSZ || exchange == exBJ) then
      Except.error ("Unsupported exchange")
    else
      Except.ok (stock, marketOf exchange, exchange)

/-- `parse_stock_code` (fund_flow.py lines 47-88): returns
`(stock, market, exchange)` or an error. -/
def parse_stock_code (code : PyStr) : Except String (PyStr × PyStr × PyStr) :=
  let raw := pyStrip code
  if raw.isEmpty then Except.error ("Empty stock code")
  else parseStockFinish (parseStockPhase1 raw)

/-! ## Numeric coercions of `save_to_sqlite` (fund_flow.py lines 316-334)

Python numbers are modelled as exact rationals carrying binary64 values:
every operation that produces a float (`float(str)`, `/`, `round`) quantizes
its exact result with `fp64Round`, round-to-nearest ties-to-even on a 53-bit
mantissa, so e.g. `float("12.345")` is `6949617174986097 / 2^49`, strictly
above the decimal tie `12.345`, exactly as in CPython. -/

/-- A Python value as it can appear in a fetched flow row: `None`, a number,
or a string. -/
inductive PyVal where
  | vnone : PyVal
  | num (q : ℚ) : PyVal
  | vstr (s : PyStr) : PyVal
deriving DecidableEq

/-- Digits of a numeral to a natural number. -/
def digitsToNat (s : PyStr) : Nat :=
  s.foldl (fun acc c => acc * 10 + (c.toNat - ('0').toNat)) 0

/-- Unsigned part of `float(str)`: `digits`, `digits.digits`, `.digits` or
`digits.` (exponents, `inf` and `nan` are outside the modelled scope). -/
def pyFloatUnsigned (s : PyStr) : Option ℚ :=
  let ip := s.takeWhile Char.isDigit
  let rest := s.drop ip.length
  match rest with
  | [] => if ip.isEmpty then Option.none else Option.some (digitsToNat ip)
  | '.' :: rest2 =>
    let fp := rest2.takeWhile Char.isDigit
    if !(rest2.drop fp.length).isEmpty || (ip.isEmpty && fp.isEmpty) then Option.none
    else Option.some ((digitsToNat ip : ℚ) + (digitsToNat fp : ℚ) / (10 : ℚ) ^ fp.length)
  | _ => Option.none

/-- The exact decimal value of a float literal: strips whitespace, handles an
optional sign, parses a decimal numeral; `none` where CPython raises
`ValueError`. -/
def pyFloatDec (s : PyStr) : Option ℚ :=
  match pyStrip s with
  | '+' :: rest => pyFloatUnsigned rest
  | '-' :: rest => (pyFloatUnsigned rest).map (fun q => -q)
  | t => pyFloatUnsigned t

/-- Round-half-to-even to an integer. -/
def roundHalfEven (q : ℚ) : ℤ :=
  let n := Int.floor q
  let r := q - (n : ℚ)
  if r < 1 / 2 then n
  else if 1 / 2 < r then n + 1
  else if n % 2 = 0 then n else n + 1

/-- The binary64 value nearest to a positive rational (normal range): round
the 53-bit mantissa with ties to even. -/
def fp64RoundPos (q : ℚ) : ℚ :=
  (roundHalfEven (q * (2 : ℚ) ^ ((52 : ℤ) - Int.log 2 q)) : ℚ)
    / (2 : ℚ) ^ ((52 : ℤ) - Int.log 2 q)

/-- Round-to-nearest-even binary64 quantization of an exact rational. -/
def fp64Round (q : ℚ) : ℚ :=
  if q = 0 then 0
  else if 0 < q then fp64RoundPos q
  else - fp64RoundPos (-q)

/-- `float(str)`: the decimal literal quantized to binary64. -/
def pyFloat (s : PyStr) : Option ℚ := (pyFloatDec s).map fp64Round

/-- IEEE-754 binary64 division `a / b`: the quantized exact quotient. -/
def fp64Div (a b : ℚ) : ℚ := fp64Round (a / b)

/-- CPython `round(q, d)` on a float `q`: correctly round the exact binary
value to `d` decimal places with ties to even, then re-quantize. -/
def pyRound (q : ℚ) (d : Nat) : ℚ :=
  fp64Round ((roundHalfEven (q * (10 : ℚ) ^ d) : ℚ) / (10 : ℚ) ^ d)

/-- `to_float` of `save_to_sqlite` (fund_flow.py lines 316-322): `None` stays
`None`; `float(val)` is attempted and any `TypeError`/`ValueError` yields
`None`. -/
def to_float : PyVal → Option ℚ
  | PyVal.vnone => Option.none
  | PyVal.num q => Option.some q
  | PyVal.vstr s => pyFloat s

/-- `to_pct` of `save_to_sqlite` (fund_flow.py lines 324-328). -/
def to_pct (v : PyVal) : Option ℚ :=
  match to_float v with
  | Option.none => Option.none
  | Option.some q => Option.some (pyRound q 2)

/-- `to_amount` of `save_to_sqlite` (fund_flow.py lines 330-334):
`round(fval / 1e8, 4)`, the division being a float division. -/
def to_amount (v : PyVal) : Option ℚ :=
  match to_float v with
  | Option.none => Option.none
  | Option.some q => Option.some (pyRound (fp64Div q 100000000) 4)

/-! ## The store writer `save_to_sqlite` (fund_flow.py lines 281-393)

The two SQLite tables are modelled as in-memory row lists; `INSERT ... ON
CONFLICT ... DO UPDATE` updates the row with the conflicting key in place or
appends a fresh row.  The connection is modelled by the pair committed/pending:
statements act on the pending state, `commit` publishes it, and the `finally:
conn.close()` after an exception discards it.  Fallibility of the SQLite calls
is modelled by an explicit error oracle. -/

/-- One fetched flow row, as built by `fetch_fund_flow_dayk` plus the `name`
enrichment (the key fields are strings, the metric fields arbitrary Python
values). -/
structure FlowInput where
  code : String
  exchange : String
  date : Option String
  close : PyVal
  pct_chg : PyVal
  main : PyVal
  main_ratio : PyVal
  ultra_large : PyVal
  ultra_large_ratio : PyVal
  large : PyVal
  large_ratio : PyVal
  medium : PyVal
  medium_ratio : PyVal
  small : PyVal
  small_ratio : PyVal
  name : Option String
deriving DecidableEq

/-- One row of the `fund_flow_daily` table. -/
structure FlowRow where
  code : String
  exchange : String
  date : String
  close : Option ℚ
  pct_chg : Option ℚ
  main : Option ℚ
  main_ratio : Option ℚ
  ultra_large : Option ℚ
  ultra_large_ratio : Option ℚ
  large : Option ℚ
  large_ratio : Option ℚ
  medium : Option ℚ
  medium_ratio : Option ℚ
  small : Option ℚ
  small_ratio : Option ℚ
  name : Option String
deriving DecidableEq

/-- One row of the `stock_basic_info_xq` table. -/
structure ProfileRow where
  code : String
  exchange : String
  field : String
  value : String
  updated : String
deriving DecidableEq

/-- The primary key of `fund_flow_daily`: (代码, 交易所, 日期). -/
def flowKey (r : FlowRow) : String × String × String := (r.code, r.exchange, r.date)

/-- The primary key of `stock_basic_info_xq`: (代码, 交易所, 字段). -/
def profileKey (r : ProfileRow) : String × String × String := (r.code, r.exchange, r.field)

/-- `if not row.get("date"): continue` — a missing or empty date is falsy. -/
def dateFalsy (d : Option String) : Bool :=
  match d with
  | Option.none => true
  | Option.some s => s.isEmpty

/-- The tuple built for one flow row by `save_to_sqlite` (fund_flow.py lines
336-359); `none` when the row is skipped for a falsy date. -/
def mapFlowRow (r : FlowInput) : Option FlowRow :=
  match r.date with
  | Option.none => Option.none
  | Option.some d =>
    if d.isEmpty then Option.none
    else
      Option.some
        { code := r.code
          exchange := r.exchange
          date := d
          close := to_float r.close
          pct_chg := to_pct r.pct_chg
          main := to_amount r.main
          main_ratio := to_pct r.main_ratio
          ultra_large := to_amount r.ultra_large
          ultra_large_ratio := to_pct r.ultra_large_ratio
          large := to_amount r.large
          large_ratio := to_pct r.large_ratio
          medium := to_amount r.medium
          medium_ratio := to_pct r.medium_ratio
          small := to_amount r.small
          small_ratio := to_pct r.small_ratio
          name := r.name }

/-- `INSERT INTO fund_flow_daily ... ON CONFLICT(代码,交易所,日期) DO UPDATE`
for a single row: replace the row with the conflicting key, else append. -/
def upsertFlowRow : List FlowRow → FlowRow → List FlowRow
  | [], r => [r]
  | x :: xs, r =>
    if flowKey x = flowKey r then r :: xs else x :: upsertFlowRow xs r

/-- `INSERT INTO stock_basic_info_xq ... ON CONFLICT(代码,交易所,字段) DO
UPDATE` for a single row. -/
def upsertProfileRow : List ProfileRow → ProfileRow → List ProfileRow
  | [], r => [r]
  | x :: xs, r =>
    if profileKey x = profileKey r then r :: xs else x :: upsertProfileRow xs r

/-- The relational store: the two tables `save_to_sqlite` writes. -/
structure DB where
  flows : List FlowRow
  profiles : List ProfileRow
deriving DecidableEq

/-- Error oracle deciding which SQLite calls fail; `none` everywhere models a
healthy store. -/
structure StoreOracle where
  initErr : Option String
  profErr : ProfileRow → Option String
  flowErr : FlowRow → Option String
  commitErr : Option String

/-- The always-healthy oracle. -/
def noStoreErr : StoreOracle :=
  { initErr := Option.none
    profErr := fun _ => Option.none
    flowErr := fun _ => Option.none
    commitErr := Option.none }

/-- Apply the per-row statements of one `executemany`, stopping at the first
row the oracle fails. -/
def execMany {α β : Type} (err : α → Option String) (apply : β → α → β) :
    β → List α → Except String β
  | st, [] => Except.ok st
  | st, r :: rs =>
    match err r with
    | Option.some e => Except.error e
    | Option.none => execMany err apply (apply st r) rs

/-- `basic_rows` of `save_to_sqlite` (fund_flow.py lines 299-303): one wide
row per (code, exchange, field, value), stamped with `now_iso`. -/
def buildProfileRows (now : String)
    (profiles : List ((String × String) × List (String × String))) : List ProfileRow :=
  profiles.flatMap (fun p =>
    p.2.map (fun fv =>
      { code := p.1.1, exchange := p.1.2, field := fv.1, value := fv.2, updated := now }))

/-- The statements issued inside the `try:` of `save_to_sqlite`, in source
order: `_init_db`, the profile `executemany`, the flow `executemany`, then
`conn.commit()`; the first failure aborts the transaction. -/
def saveAttempt (o : StoreOracle) (now : String) (db : DB)
    (flows : List FlowInput)
    (profiles : List ((String × String) × List (String × String))) :
    Except String DB :=
  match o.initErr with
  | Option.some e => Except.error e
  | Option.none =>
    match execMany o.profErr upsertProfileRow db.profiles (buildProfileRows now profiles) with
    | Except.error e => Except.error e
    | Except.ok profTable =>
      match execMany o.flowErr upsertFlowRow db.flows (flows.filterMap mapFlowRow) with
      | Except.error e => Except.error e
      | Except.ok flowTable =>
        match o.commitErr with
        | Option.some e => Except.error e
        | Option.none => Except.ok { flows := flowTable, profiles := profTable }

/-- `save_to_sqlite` (fund_flow.py lines 281-393): returns the store visible
after the call together with the propagated error, if any — the transaction
commits as a whole or, when any statement fails, is discarded by the
`finally: conn.close()` while the exception propagates to the caller. -/
def save_to_sqlite (o : StoreOracle) (now : String) (db : DB)
    (flows : List FlowInput)
    (profiles : List ((String × String) × List (String × String))) :
    DB × Option String :=
  if flows.isEmpty && profiles.isEmpty then (db, Option.none)
  else
    match saveAttempt o now db flows profiles with
    | Except.ok db2 => (db2, Option.none)
    | Except.error e => (db, Option.some e)

/-- The fully-applied result of a batch: every profile row and every mapped
flow row upserted. -/
def applyAll (now : String) (db : DB) (flows : List FlowInput)
    (profiles : List ((String × String) × List (String × String))) : DB :=
  { flows := (flows.filterMap mapFlowRow).foldl upsertFlowRow db.flows
    profiles := (buildProfileRows now profiles).foldl upsertProfileRow db.profiles }

/-! ## `RateLimiter.wait` (tushare_minute_history.py lines 130-145)

Each loop iteration of `wait` reads the monotonic clock once; a run of the
limiter is modelled by the sequence of clock readings of those iterations
(nondecreasing, as `time.monotonic` guarantees).  An iteration prunes the
tracked timestamps to the rolling window, admits the call when fewer than
`max_calls` remain, and otherwise sleeps and retries. -/

/-- Run the loop iterations of `wait` over the clock readings `polls` with
tracked list `calls`, collecting the times at which calls were admitted: an
iteration prunes `self.calls` to the timestamps still inside the rolling
window, appends `now` and returns when fewer than `max_calls` remain, and
otherwise sleeps (the next clock reading) and retries. -/
def rlRun (maxCalls : Nat) (periodSeconds : ℚ) : List ℚ → List ℚ → List ℚ
  | _, [] => []
  | calls, now :: rest =>
    if (calls.filter (fun t => decide (now - t < periodSeconds))).length < maxCalls then
      now :: rlRun maxCalls periodSeconds
        (calls.filter (fun t => decide (now - t < periodSeconds)) ++ [now]) rest
    else
      rlRun maxCalls periodSeconds
        (calls.filter (fun t => decide (now - t < periodSeconds))) rest

/-! ## `fetch_all_stock_codes` (daily_bulk_flow.py lines 131-178)

The cache file read is modelled by its three observable outcomes; the paged
Eastmoney responses by a list of pages whose items are the optional `f12`
fields.  The loop stops at the first empty page or after page 200. -/

/-- Outcome of reading and JSON-parsing `data/all_codes.json`. -/
inductive CacheRead where
  | missing : CacheRead
  | malformed : CacheRead
  | parsed (xs : List String) : CacheRead
deriving DecidableEq

/-- `str.isdigit()` on a `String`. -/
def pyIsDigitStr (s : String) : Bool := pyIsDigit s.toList

/-- The codes kept from one response page: `if code and len(code) == 6 and
code.isdigit()`. -/
def pageCodes (page : List (Option String)) : List String :=
  page.filterMap (fun it =>
    match it with
    | Option.none => Option.none
    | Option.some c =>
      if !c.isEmpty && c.length == 6 && pyIsDigitStr c then Option.some c
      else Option.none)

/-- The pagination loop: collect pages until the first empty one, over at
most `fuel` pages (the source caps `pn` at 200). -/
def collectPages : Nat → List (List (Option String)) → List String
  | _, [] => []
  | 0, _ :: _ => []
  | fuel + 1, page :: rest =>
    if page.isEmpty then [] else pageCodes page ++ collectPages fuel rest

/-- Insert into a strictly-sorted duplicate-free list, modelling one step of
Python's `sorted(set(codes))`. -/
def insertUnique (x : String) : List String → List String
  | [] => [x]
  | y :: ys =>
    if x < y then x :: y :: ys
    else if x = y then y :: ys
    else y :: insertUnique x ys

/-- `sorted(set(l))`. -/
def sortedDedup (l : List String) : List String := l.foldr insertUnique []

/-- Whether the cache short-circuit of `fetch_all_stock_codes` fires:
`isinstance(data, list) and data` after a successful parse. -/
def cacheServes : CacheRead → Bool
  | CacheRead.parsed xs => !xs.isEmpty
  | _ => false

/-- The cached list (empty for the non-serving outcomes). -/
def cacheList : CacheRead → List String
  | CacheRead.parsed xs => xs
  | _ => []

/-- `fetch_all_stock_codes` (daily_bulk_flow.py lines 131-178). -/
def fetch_all_stock_codes (forceRefresh : Bool) (cache : CacheRead)
    (pages : List (List (Option String))) : List String :=
  if !forceRefresh && cacheServes cache then cacheList cache
  else sortedDedup (collectPages 200 pages)

/-! ## The per-symbol worker of `run_for_date` (daily_bulk_flow.py 199-228)

The network is modelled by an environment: `fetchFlow code attempt` is the
outcome of `fetch_fund_flow_dayk` on the given retry attempt, and
`profileOf` is `fetch_basic_profile`, which swallows its own errors and is
therefore total.  `as_completed` yields tasks in a nondeterministic order;
the aggregation is order-insensitive and is modelled in submission order. -/

/-- A log line of the worker: the `LOGGER.warning` calls. -/
inductive LogEntry where
  | noData (code : String) (date : Option String) : LogEntry
  | failed (code : String) (date : Option String) (msg : String) : LogEntry
deriving DecidableEq

/-- The network/protocol environment a batch runs against. -/
structure FetchEnv where
  fetchFlow : String → Nat → Except String (List FlowInput)
  profileOf : String → List (String × String)

/-- `profile.get(key)` — association lookup. -/
def profGet (profile : List (String × String)) (key : String) : Option String :=
  match profile.find? (fun kv => kv.1 = key) with
  | Option.none => Option.none
  | Option.some kv => Option.some kv.2

/-- `extract_stock_name` (fund_flow.py lines 268-278): first truthy value
among the preferred keys. -/
def extract_stock_name (profile : List (String × String)) : Option String :=
  let pick : String → Option String := fun k =>
    match profGet profile k with
    | Option.none => Option.none
    | Option.some v => if v.isEmpty then Option.none else Option.some v
  match pick ("org_short_name_cn") with
  | Option.some v => Option.some v
  | Option.none =>
    match pick ("org_name_cn") with
    | Option.some v => Option.some v
    | Option.none =>
      match pick ("org_short_name_en") with
      | Option.some v => Option.some v
      | Option.none => pick ("org_name_en")

/-- The result of one `_worker` call, including its retry bookkeeping. -/
structure WorkerOut where
  flows : List FlowInput
  profileEntry : Option (String × String × List (String × String))
  log : List LogEntry
  sleeps : List Nat
  attemptsUsed : Nat
deriving DecidableEq

/-- The body of one try-block of `_worker`: fetch the flows, fetch the
profile (total, it swallows its own errors), parse the code, extract the
name, enrich each row with it. -/
def workerAttempt (env : FetchEnv) (code : String) (attempt : Nat) :
    Except String (List FlowInput × (String × String × List (String × String))) :=
  match env.fetchFlow code attempt with
  | Except.error e => Except.error e
  | Except.ok flows =>
    match parse_stock_code code.toList with
    | Except.error e => Except.error e
    | Except.ok parsed =>
      Except.ok
        (flows.map (fun f =>
            { f with name := extract_stock_name (env.profileOf code) }),
         (parsed.1.asString, parsed.2.2.asString, env.profileOf code))

/-- The result of a successful attempt, with the retry bookkeeping the loop
had accumulated so far. -/
def workerSuccess (code : String) (date : Option String)
    (enriched : List FlowInput)
    (pe : String × String × List (String × String))
    (sleeps : List Nat) (attemptsUsed : Nat) : WorkerOut :=
  { flows := enriched
    profileEntry := Option.some pe
    log := if enriched.isEmpty then [LogEntry.noData code date] else []
    sleeps := sleeps
    attemptsUsed := attemptsUsed }

/-- `_worker` of `run_for_date` (daily_bulk_flow.py lines 199-218): the
`for attempt in range(3)` loop, unrolled, sleeping `1 + attempt` seconds
after each failed attempt and logging a per-symbol warning after the last. -/
def runWorker (env : FetchEnv) (code : String) (date : Option String) : WorkerOut :=
  match workerAttempt env code 0 with
  | Except.ok (enriched, pe) => workerSuccess code date enriched pe [] 1
  | Except.error _ =>
    match workerAttempt env code 1 with
    | Except.ok (enriched, pe) => workerSuccess code date enriched pe [1] 2
    | Except.error _ =>
      match workerAttempt env code 2 with
      | Except.ok (enriched, pe) => workerSuccess code date enriched pe [1, 2] 3
      | Except.error e =>
        { flows := []
          profileEntry := Option.none
          log := [LogEntry.failed code date e]
          sleeps := [1, 2, 3]
          attemptsUsed := 3 }

/-- `profile_map[(stock, exchange)] = profile` — dict assignment. -/
def upsertProfileMap (m : List ((String × String) × List (String × String)))
    (k : String × String) (v : List (String × String)) :
    List ((String × String) × List (String × String)) :=
  match m with
  | [] => [(k, v)]
  | kv :: rest =>
    if kv.1 = k then (k, v) :: rest else kv :: upsertProfileMap rest k v

/-- The aggregate a batch run produces before `save_to_sqlite`. -/
structure RunOut where
  flows : List FlowInput
  profileMap : List ((String × String) × List (String × String))
  log : List LogEntry
deriving DecidableEq

/-- One gather step of `run_for_date` (daily_bulk_flow.py lines 222-228). -/
def gatherStep (env : FetchEnv) (date : Option String) (acc : RunOut)
    (code : String) : RunOut :=
  let w := runWorker env code date
  { flows := if w.flows.isEmpty then acc.flows else acc.flows ++ w.flows
    profileMap := match w.profileEntry with
      | Option.some se => upsertProfileMap acc.profileMap (se.1, se.2.1) se.2.2
      | Option.none => acc.profileMap
    log := acc.log ++ w.log }

/-- The collection phase of `run_for_date` (daily_bulk_flow.py lines
194-228): run every symbol's worker and aggregate. -/
def run_for_date_collect (env : FetchEnv) (codes : List String)
    (date : Option String) : RunOut :=
  codes.foldl (gatherStep env date) { flows := [], profileMap := [], log := [] }

/-! ## Tier labels of the RSS formatter (rss_fund_flow.py lines 197-212) -/

/-- One parsed minute fund-flow row: the five tier values as scaled by
`fetch_latest_minute` (主力 / 超大单 / 大单 / 中单 / 小单). -/
structure MinuteRow where
  time : String
  zhuli : Option ℚ
  chaoda : Option ℚ
  dadan : Option ℚ
  zhongdan : Option ℚ
  xiaodan : Option ℚ
deriving DecidableEq

/-- The label/value pairs `run_once` writes into the item description
(rss_fund_flow.py lines 205-212), in source order. -/
def rssTierPairs (row : MinuteRow) : List (String × Option ℚ) :=
  [("主力", row.zhuli), ("超大单", row.xiaodan), ("大单", row.zhongdan),
   ("中单", row.dadan), ("小单", row.chaoda)]

/-- Modelled from the spec: the label/value pairing required by the
documented canonical field semantics (spec §3 and §9) — each tier label paired
with the same-named semantic field of the row. -/
def semanticTierPairs (row : MinuteRow) : List (String × Option ℚ) :=
  [("主力", row.zhuli), ("超大单", row.chaoda), ("大单", row.dadan),
   ("中单", row.zhongdan), ("小单", row.xiaodan)]

/-! ## Auxiliary definitions used by the statements below -/

/-- The ten ASCII digits. -/
def digitChars : List Char := ['0','1','2','3','4','5','6','7','8','9']

/-- Every numeric head the normalizer recognizes explicitly. -/
def recognizedHeads : List PyStr := shHeads ++ szHeads ++ bjHeads

/-- The Beijing heads that are actually reachable in `parse_stock_code`
(`688` is shadowed by the Shanghai branch; `832`, `834`, `837` and
`873`-`879` are absent from the source tuple). -/
def amendedBjHeads : List PyStr :=
  [['4','3','0'], ['8','3','0'], ['8','3','1'], ['8','3','3'], ['8','3','5'],
   ['8','3','6'], ['8','3','8'], ['8','3','9'],
   ['8','7','0'], ['8','7','1'], ['8','7','2']]

/-- The exchange-inference table as the amended claim states it: the listed
SH and SZ heads, the eleven reachable BJ heads, and SH for everything else. -/
def amendedExchange (cleaned : PyStr) : PyStr :=
  if pyStartsWithAny cleaned shHeads then exSH
  else if pyStartsWithAny cleaned szHeads then exSZ
  else if pyStartsWithAny cleaned amendedBjHeads then exBJ
  else exSH

/-- The codes reported as per-symbol failures in a run's log. -/
def failedCodes (log : List LogEntry) : List String :=
  log.filterMap (fun l =>
    match l with
    | LogEntry.failed c _ _ => Option.some c
    | LogEntry.noData _ _ => Option.none)

/-- The enrichment a successful worker applies to its fetched rows:
`{**item, "name": name}` with the name extracted from the profile. -/
def enrichFlows (env : FetchEnv) (code : String) (flows : List FlowInput) :
    List FlowInput :=
  flows.map (fun f => { f with name := extract_stock_name (env.profileOf code) })

/-- A concrete two-symbol environment in which every fetch of `000001` raises
and every fetch of `600519` succeeds with no rows. -/
def envTwoSymbols : FetchEnv :=
  { fetchFlow := fun c _ =>
      if c == ("600519") then Except.ok [] else Except.error ("boom")
    profileOf := fun _ => [] }

/-! ## Helper lemmas about the store writer -/

lemma execMany_ok {α β : Type} (err : α → Option String) (ap : β → α → β) :
    ∀ (rows : List α) (st out : β),
      execMany err ap st rows = Except.ok out → out = rows.foldl ap st := by
  intro rows
  induction rows with
  | nil =>
    intro st out h
    simpa [execMany] using h.symm
  | cons r rs ih =>
    intro st out h
    cases herr : err r with
    | none =>
      rw [execMany, herr] at h
      simpa [List.foldl] using ih (ap st r) out h
    | some e =>
      rw [execMany, herr] at h
      cases h

lemma execMany_none {α β : Type} (ap : β → α → β) :
    ∀ (rows : List α) (st : β),
      execMany (fun _ => Option.none) ap st rows = Except.ok (rows.foldl ap st) := by
  intro rows
  induction rows with
  | nil => intro st; rfl
  | cons r rs ih => intro st; simpa [execMany, List.foldl] using ih (ap st r)

lemma applyAll_empty (now : String) (db : DB) : applyAll now db [] [] = db := rfl

/-- A healthy store commits the whole batch. -/
lemma save_healthy (now : String) (db : DB) (flows : List FlowInput)
    (profiles : List ((String × String) × List (String × String))) :
    save_to_sqlite noStoreErr now db flows profiles
      = (applyAll now db flows profiles, Option.none) := by
  by_cases hempty : (flows.isEmpty && profiles.isEmpty) = true
  · have hf : flows = [] := by
      cases flows with
      | nil => rfl
      | cons a l => simp [List.isEmpty] at hempty
    have hp : profiles = [] := by
      cases profiles with
      | nil => rfl
      | cons a l => simp [List.isEmpty] at hempty
    subst hf; subst hp
    simp [save_to_sqlite, applyAll_empty]
  · rw [save_to_sqlite]
    simp only [hempty, Bool.false_eq_true, if_false]
    rw [saveAttempt]
    simp only [noStoreErr]
    rw [execMany_none upsertProfileRow (buildProfileRows now profiles) db.profiles]
    rw [execMany_none upsertFlowRow (flows.filterMap mapFlowRow) db.flows]
    rfl

/-- Either the whole batch commits or the store is unchanged and the error
propagates. -/
lemma save_result (o : StoreOracle) (now : String) (db : DB)
    (flows : List FlowInput)
    (profiles : List ((String × String) × List (String × String))) :
    save_to_sqlite o now db flows profiles = (applyAll now db flows profiles, Option.none)
    ∨ ∃ e, save_to_sqlite o now db flows profiles = (db, Option.some e) := by
  by_cases hempty : (flows.isEmpty && profiles.isEmpty) = true
  · left
    have hf : flows = [] := by
      cases flows with
      | nil => rfl
      | cons a l => simp [List.isEmpty] at hempty
    have hp : profiles = [] := by
      cases profiles with
      | nil => rfl
      | cons a l => simp [List.isEmpty] at hempty
    subst hf; subst hp
    simp [save_to_sqlite, applyAll_empty]
  · rw [save_to_sqlite]
    simp only [hempty, Bool.false_eq_true, if_false]
    rw [saveAttempt]
    cases hinit : o.initErr with
    | some e => right; exact ⟨e, rfl⟩
    | none =>
      cases hprof : execMany o.profErr upsertProfileRow db.profiles
          (buildProfileRows now profiles) with
      | error e => right; exact ⟨e, rfl⟩
      | ok profTable =>
        cases hflow : execMany o.flowErr upsertFlowRow db.flows
            (flows.filterMap mapFlowRow) with
        | error e => right; exact ⟨e, rfl⟩
        | ok flowTable =>
          cases hcommit : o.commitErr with
          | some e => right; exact ⟨e, rfl⟩
          | none =>
            left
            have h1 := execMany_ok o.profErr upsertProfileRow
              (buildProfileRows now profiles) db.profiles profTable hprof
            have h2 := execMany_ok o.flowErr upsertFlowRow
              (flows.filterMap mapFlowRow) db.flows flowTable hflow
            simp [applyAll, h1, h2]

lemma mapFlowRow_falsy (r : FlowInput) (h : dateFalsy r.date = true) :
    mapFlowRow r = Option.none := by
  cases hd : r.date with
  | none => simp [mapFlowRow, hd]
  | some d =>
    have h2 : d.isEmpty = true := by simpa [dateFalsy, hd] using h
    simp [mapFlowRow, hd, h2]

lemma filterMap_mapFlowRow_filter (flows : List FlowInput) :
    (flows.filter (fun r => !dateFalsy r.date)).filterMap mapFlowRow
      = flows.filterMap mapFlowRow := by
  induction flows with
  | nil => rfl
  | cons r rs ih =>
    by_cases h : dateFalsy r.date = true
    · rw [List.filter_cons, List.filterMap_cons, mapFlowRow_falsy r h]
      simp only [h, Bool.not_true, Bool.false_eq_true, if_false]
      exact ih
    · have h2 : dateFalsy r.date = false := by
        cases hb : dateFalsy r.date with
        | false => rfl
        | true => exact absurd hb h
      rw [List.filter_cons, List.filterMap_cons]
      simp only [h2, Bool.not_false, if_true, List.filterMap_cons]
      cases mapFlowRow r with
      | none => exact ih
      | some row => simp [ih]

/-! ## C5, C10, C4, C8 -/

/-- C5: for every batch passed to the store writer, either every row of the
batch is committed, or on any failure during the write none of the batch's
rows are committed (the store is unchanged) and the error propagates to the
caller rather than being swallowed. -/
theorem save_to_sqlite_atomic (o : StoreOracle) (now : String) (db : DB)
    (flows : List FlowInput)
    (profiles : List ((String × String) × List (String × String))) :
    save_to_sqlite o now db flows profiles = (applyAll now db flows profiles, Option.none)
    ∨ ∃ e, save_to_sqlite o now db flows profiles = (db, Option.some e) :=
  save_result o now db flows profiles

/-- C10: flow records with a missing or empty date are silently skipped by the
store writer — the batch behaves exactly like the batch without them, no error
is raised, and all remaining records are still written. -/
theorem save_to_sqlite_skips_dateless (now : String) (db : DB)
    (flows : List FlowInput)
    (profiles : List ((String × String) × List (String × String))) :
    save_to_sqlite noStoreErr now db flows profiles
      = save_to_sqlite noStoreErr now db (flows.filter (fun r => !dateFalsy r.date)) profiles
    ∧ (save_to_sqlite noStoreErr now db flows profiles).2 = Option.none
    ∧ (save_to_sqlite noStoreErr now db flows profiles).1.flows
      = (flows.filterMap mapFlowRow).foldl upsertFlowRow db.flows := by
  refine ⟨?_, ?_, ?_⟩
  · rw [save_healthy, save_healthy]
    simp [applyAll, filterMap_mapFlowRow_filter]
  · rw [save_healthy]
  · rw [save_healthy]
    simp [applyAll]

/-- C8 (code bug relative to the documented semantics): at a minute row whose
five tier values are pairwise distinct, the RSS formatter pairs the 超大单
label with the 小单 value, 大单 with 中单, 中单 with 大单 and 小单 with
超大单, instead of the same-named semantic fields (spec §3, §9). -/
theorem rss_label_value_swap :
    rssTierPairs
        { time := ("t"), zhuli := Option.some 1, chaoda := Option.some 2,
          dadan := Option.some 3, zhongdan := Option.some 4, xiaodan := Option.some 5 }
      = [("主力", Option.some 1), ("超大单", Option.some 5), ("大单", Option.some 4),
         ("中单", Option.some 3), ("小单", Option.some 2)]
    ∧ rssTierPairs
        { time := ("t"), zhuli := Option.some 1, chaoda := Option.some 2,
          dadan := Option.some 3, zhongdan := Option.some 4, xiaodan := Option.some 5 }
      ≠ semanticTierPairs
        { time := ("t"), zhuli := Option.some 1, chaoda := Option.some 2,
          dadan := Option.some 3, zhongdan := Option.some 4, xiaodan := Option.some 5 } := by
  constructor
  · rfl
  · decide

/-! ## C4: the numeric coercions -/

lemma roundHalfEven_eval_down (q : ℚ) (n : ℤ) (hfl : Int.floor q = n)
    (hr : q - (n : ℚ) < 1 / 2) : roundHalfEven q = n := by
  simp only [roundHalfEven, hfl]
  rw [if_pos hr]

lemma roundHalfEven_eval_up (q : ℚ) (n : ℤ) (hfl : Int.floor q = n)
    (hr : 1 / 2 < q - (n : ℚ)) : roundHalfEven q = n + 1 := by
  simp only [roundHalfEven, hfl]
  rw [if_neg (by linarith), if_pos hr]

lemma intLog2_eval (q : ℚ) (m e : ℕ) (h1 : 1 ≤ q) (hfl : Nat.floor q = m)
    (hm1 : 2 ^ e ≤ m) (hm2 : m < 2 ^ (e + 1)) : Int.log 2 q = (e : ℤ) := by
  rw [Int.log_of_one_le_right 2 h1, hfl, Nat.log_eq_of_pow_le_of_lt_pow hm1 hm2]

lemma fp64Round_eval (q : ℚ) (e : ℕ) (n : ℤ) (hq : 0 < q)
    (hlog : Int.log 2 q = (e : ℤ))
    (hn : roundHalfEven (q * (2 : ℚ) ^ ((52 : ℤ) - (e : ℤ))) = n) :
    fp64Round q = (n : ℚ) / (2 : ℚ) ^ ((52 : ℤ) - (e : ℤ)) := by
  rw [fp64Round, if_neg (ne_of_gt hq), if_pos hq, fp64RoundPos, hlog, hn]

lemma pyFloatDec_12345 :
    pyFloatDec ("12.345".toList) = Option.some ((2469 : ℚ) / 200) := by
  have h : pyFloatDec ("12.345".toList)
      = Option.some ((digitsToNat ['1','2'] : ℚ)
          + (digitsToNat ['3','4','5'] : ℚ) / 10 ^ 3) := rfl
  have h12 : digitsToNat ['1','2'] = 12 := rfl
  have h345 : digitsToNat ['3','4','5'] = 345 := rfl
  rw [h, h12, h345]
  norm_num

lemma fp64_12345 : fp64Round ((2469 : ℚ) / 200)
    = (6949617174986097 : ℚ) / (2 : ℚ) ^ ((49 : ℤ)) := by
  have hlog : Int.log 2 ((2469 : ℚ) / 200) = (((3 : ℕ)) : ℤ) :=
    intLog2_eval _ 12 3 (by norm_num)
      ((Nat.floor_eq_iff (by norm_num)).mpr (by norm_num)) (by norm_num) (by norm_num)
  have harg : (2469 : ℚ) / 200 * (2 : ℚ) ^ ((52 : ℤ) - ((3 : ℕ) : ℤ))
      = (173740429374652416 : ℚ) / 25 := by norm_num
  have hn : roundHalfEven ((2469 : ℚ) / 200 * (2 : ℚ) ^ ((52 : ℤ) - ((3 : ℕ) : ℤ)))
      = 6949617174986097 := by
    rw [harg]
    exact roundHalfEven_eval_up _ 6949617174986096 (by norm_num) (by norm_num)
  have h := fp64Round_eval ((2469 : ℚ) / 200) 3 6949617174986097 (by norm_num) hlog hn
  rw [h]
  norm_num

lemma pyRound_12345 : pyRound ((6949617174986097 : ℚ) / (2 : ℚ) ^ ((49 : ℤ))) 2
    = fp64Round ((247 : ℚ) / 20) := by
  have harg : (6949617174986097 : ℚ) / (2 : ℚ) ^ ((49 : ℤ)) * (10 : ℚ) ^ (2 : ℕ)
      = (173740429374652425 : ℚ) / 140737488355328 := by norm_num
  have hn : roundHalfEven ((6949617174986097 : ℚ) / (2 : ℚ) ^ ((49 : ℤ)) * (10 : ℚ) ^ (2 : ℕ))
      = 1235 := by
    rw [harg]
    exact roundHalfEven_eval_up _ 1234 (by norm_num) (by norm_num)
  rw [pyRound, hn]
  exact congrArg fp64Round (by norm_num)

/-- The claim's example: the percent coercion maps the string `"12.345"` to
the float `12.35`.  `float("12.345")` is `6949617174986097/2^49`, strictly
above the decimal tie, so CPython rounds up to `12.35`. -/
lemma to_pct_12345_eval :
    to_pct (PyVal.vstr ("12.345".toList)) = pyFloat ("12.35".toList) := by
  have h1 : to_float (PyVal.vstr ("12.345".toList))
      = Option.some (fp64Round ((2469 : ℚ) / 200)) := by
    show pyFloat ("12.345".toList) = _
    rw [pyFloat, pyFloatDec_12345]
    rfl
  have hdec : pyFloatDec ("12.35".toList) = Option.some ((247 : ℚ) / 20) := by
    have h : pyFloatDec ("12.35".toList)
        = Option.some ((digitsToNat ['1','2'] : ℚ)
            + (digitsToNat ['3','5'] : ℚ) / 10 ^ 2) := rfl
    have h12 : digitsToNat ['1','2'] = 12 := rfl
    have h35 : digitsToNat ['3','5'] = 35 := rfl
    rw [h, h12, h35]
    norm_num
  rw [to_pct, h1, pyFloat, hdec]
  show Option.some (pyRound (fp64Round ((2469 : ℚ) / 200)) 2)
      = Option.some (fp64Round ((247 : ℚ) / 20))
  rw [fp64_12345, pyRound_12345]

lemma fp64_amountQ : fp64Round ((123456789 : ℚ) / 100000000)
    = (5559999489367579 : ℚ) / (2 : ℚ) ^ ((52 : ℤ)) := by
  have hlog : Int.log 2 ((123456789 : ℚ) / 100000000) = (((0 : ℕ)) : ℤ) :=
    intLog2_eval _ 1 0 (by norm_num)
      ((Nat.floor_eq_iff (by norm_num)).mpr (by norm_num)) (by norm_num) (by norm_num)
  have harg : (123456789 : ℚ) / 100000000 * (2 : ℚ) ^ ((52 : ℤ) - ((0 : ℕ) : ℤ))
      = (2171874800534210740224 : ℚ) / 390625 := by norm_num
  have hn : roundHalfEven
        ((123456789 : ℚ) / 100000000 * (2 : ℚ) ^ ((52 : ℤ) - ((0 : ℕ) : ℤ)))
      = 5559999489367579 := by
    rw [harg]
    exact roundHalfEven_eval_down _ 5559999489367579 (by norm_num) (by norm_num)
  have h := fp64Round_eval ((123456789 : ℚ) / 100000000) 0 5559999489367579
    (by norm_num) hlog hn
  rw [h]
  norm_num

lemma pyRound_amount : pyRound ((5559999489367579 : ℚ) / (2 : ℚ) ^ ((52 : ℤ))) 4
    = fp64Round ((6173 : ℚ) / 5000) := by
  have harg : (5559999489367579 : ℚ) / (2 : ℚ) ^ ((52 : ℤ)) * (10 : ℚ) ^ (4 : ℕ)
      = (3474999680854736875 : ℚ) / 281474976710656 := by norm_num
  have hn : roundHalfEven
        ((5559999489367579 : ℚ) / (2 : ℚ) ^ ((52 : ℤ)) * (10 : ℚ) ^ (4 : ℕ))
      = 12346 := by
    rw [harg]
    exact roundHalfEven_eval_up _ 12345 (by norm_num) (by norm_num)
  rw [pyRound, hn]
  exact congrArg fp64Round (by norm_num)

/-- The amount coercion divides by `1e8` and rounds to 4 decimal places:
`123456789` maps to the float `1.2346`, as CPython computes. -/
lemma to_amount_eval :
    to_amount (PyVal.num 123456789) = pyFloat ("1.2346".toList) := by
  have hdec : pyFloatDec ("1.2346".toList) = Option.some ((6173 : ℚ) / 5000) := by
    have h : pyFloatDec ("1.2346".toList)
        = Option.some ((digitsToNat ['1'] : ℚ)
            + (digitsToNat ['2','3','4','6'] : ℚ) / 10 ^ 4) := rfl
    have h1 : digitsToNat ['1'] = 1 := rfl
    have h2346 : digitsToNat ['2','3','4','6'] = 2346 := rfl
    rw [h, h1, h2346]
    norm_num
  rw [to_amount, to_float, pyFloat, hdec]
  show Option.some (pyRound (fp64Round ((123456789 : ℚ) / 100000000)) 4)
      = Option.some (fp64Round ((6173 : ℚ) / 5000))
  rw [fp64_amountQ, pyRound_amount]

/-- C4: a value that parses as a number is coerced to a (binary64-modelled)
float; percentage fields are rounded to 2 decimal places (the string
`"12.345"` maps to the number `12.35`, i.e. the value of `float("12.35")`);
currency amounts are divided by `1e8` (and rounded to 4 decimal places as the
source does); a missing, blank or unparsable value maps to `None` — never to
zero and never raising an exception. -/
theorem mapper_coercions (q0 : ℚ) (s0 : PyStr) (v0 : PyVal) :
    to_float (PyVal.num q0) = Option.some q0
    ∧ (∀ q : ℚ, pyFloat s0 = Option.some q →
        to_float (PyVal.vstr s0) = Option.some q
        ∧ to_pct (PyVal.vstr s0) = Option.some (pyRound q 2)
        ∧ to_amount (PyVal.vstr s0) = Option.some (pyRound (fp64Div q 100000000) 4))
    ∧ (to_float v0 = Option.none →
        to_pct v0 = Option.none ∧ to_amount v0 = Option.none)
    ∧ to_float PyVal.vnone = Option.none
    ∧ to_float (PyVal.vstr []) = Option.none
    ∧ (pyFloat s0 = Option.none → to_float (PyVal.vstr s0) = Option.none)
    ∧ to_pct (PyVal.vstr ("12.345".toList)) = pyFloat ("12.35".toList)
    ∧ to_amount (PyVal.num 123456789) = pyFloat ("1.2346".toList) := by
  refine ⟨rfl, ?_, ?_, rfl, rfl, ?_, to_pct_12345_eval, to_amount_eval⟩
  · intro q hq
    refine ⟨by simp [to_float, hq], ?_, ?_⟩
    · simp [to_pct, to_float, hq]
    · simp [to_amount, to_float, hq]
  · intro hv
    exact ⟨by simp [to_pct, hv], by simp [to_amount, hv]⟩
  · intro hs
    simp [to_float, hs]

lemma fp64_75 : fp64Round ((15 : ℚ) / 2) = (15 : ℚ) / 2 := by
  have hlog : Int.log 2 ((15 : ℚ) / 2) = (((2 : ℕ)) : ℤ) :=
    intLog2_eval _ 7 2 (by norm_num)
      ((Nat.floor_eq_iff (by norm_num)).mpr (by norm_num)) (by norm_num) (by norm_num)
  have harg : (15 : ℚ) / 2 * (2 : ℚ) ^ ((52 : ℤ) - ((2 : ℕ) : ℤ))
      = (8444249301319680 : ℚ) := by norm_num
  have hn : roundHalfEven ((15 : ℚ) / 2 * (2 : ℚ) ^ ((52 : ℤ) - ((2 : ℕ) : ℤ)))
      = 8444249301319680 := by
    rw [harg]
    exact roundHalfEven_eval_down _ 8444249301319680 (by norm_num) (by norm_num)
  have h := fp64Round_eval ((15 : ℚ) / 2) 2 8444249301319680 (by norm_num) hlog hn
  rw [h]
  norm_num

lemma pyFloat_75 : pyFloat ("7.5".toList) = Option.some ((15 : ℚ) / 2) := by
  have h : pyFloatDec ("7.5".toList)
      = Option.some ((digitsToNat ['7'] : ℚ) + (digitsToNat ['5'] : ℚ) / 10 ^ 1) := rfl
  have h7 : digitsToNat ['7'] = 7 := rfl
  have h5 : digitsToNat ['5'] = 5 := rfl
  have hdec : pyFloatDec ("7.5".toList) = Option.some ((15 : ℚ) / 2) := by
    rw [h, h7, h5]
    norm_num
  rw [pyFloat, hdec]
  show Option.some (fp64Round ((15 : ℚ) / 2)) = _
  rw [fp64_75]

/-- Witness for the C4 theorem at concrete inputs. -/
theorem mapper_coercions_witness :
    to_pct (PyVal.vstr ("7.5".toList)) = Option.some (pyRound ((15 : ℚ) / 2) 2)
    ∧ to_pct (PyVal.vstr ("abc".toList)) = Option.none := by
  constructor
  · exact ((mapper_coercions 0 ("7.5".toList) PyVal.vnone).2.1 ((15 : ℚ) / 2)
      pyFloat_75).2.1
  · exact ((mapper_coercions 0 ("abc".toList) (PyVal.vstr ("abc".toList))).2.2.1
      rfl).1

/-! ## C1: last-write-wins upsert keyed by (code, exchange, date) -/

lemma upsertFlowRow_countP_self (r : FlowRow) (k : String × String × String)
    (hr : flowKey r = k) :
    ∀ t : List FlowRow,
      t.countP (fun x => decide (flowKey x = k)) ≤ 1 →
      (upsertFlowRow t r).countP (fun x => decide (flowKey x = k)) = 1 := by
  intro t
  induction t with
  | nil =>
    intro _
    simp [upsertFlowRow, List.countP_cons, hr]
  | cons x xs ih =>
    intro h
    by_cases hx : flowKey x = flowKey r
    · rw [upsertFlowRow]
      simp only [hx, if_true]
      have hxs : xs.countP (fun y => decide (flowKey y = k)) = 0 := by
        have hc := List.countP_cons (fun y => decide (flowKey y = k)) x xs
        rw [hc] at h
        have hxk : (decide (flowKey x = k)) = true := by
          simp [hx, hr]
        simp only [hxk, if_true] at h
        omega
      rw [List.countP_cons]
      simp [hr, hxs]
    · rw [upsertFlowRow]
      simp only [hx, if_false]
      have hxk : (decide (flowKey x = k)) = false := by
        simp only [decide_eq_false_iff_not]
        intro hcontra
        exact hx (by rw [hcontra, hr])
      rw [List.countP_cons] at h ⊢
      simp only [hxk, Bool.false_eq_true, if_false, Nat.add_zero] at h ⊢
      exact ih h

lemma upsertFlowRow_find_self (r : FlowRow) (k : String × String × String)
    (hr : flowKey r = k) :
    ∀ t : List FlowRow,
      t.countP (fun x => decide (flowKey x = k)) ≤ 1 →
      (upsertFlowRow t r).find? (fun x => decide (flowKey x = k)) = Option.some r := by
  intro t
  induction t with
  | nil =>
    intro _
    simp [upsertFlowRow, List.find?, hr]
  | cons x xs ih =>
    intro h
    by_cases hx : flowKey x = flowKey r
    · rw [upsertFlowRow]
      simp only [hx, if_true]
      simp [List.find?, hr]
    · rw [upsertFlowRow]
      simp only [hx, if_false]
      have hxk : (decide (flowKey x = k)) = false := by
        simp only [decide_eq_false_iff_not]
        intro hcontra
        exact hx (by rw [hcontra, hr])
      rw [List.countP_cons] at h
      simp only [hxk, Bool.false_eq_true, if_false, Nat.add_zero] at h
      rw [List.find?]
      simp only [hxk]
      exact ih h

/-- C1: upserting two `FundFlowRecord`s with the same (code, exchange, date)
key, one after the other, leaves exactly one row for that key in
`fund_flow_daily`, and that row carries every non-key column of the second
write (last-write-wins). -/
theorem upsert_last_write_wins (now1 now2 : String) (db : DB) (r1 r2 : FlowInput)
    (row1 row2 : FlowRow)
    (hm1 : mapFlowRow r1 = Option.some row1)
    (hm2 : mapFlowRow r2 = Option.some row2)
    (hkey : flowKey row1 = flowKey row2)
    (hdb : db.flows.countP (fun x => decide (flowKey x = flowKey row2)) ≤ 1) :
    ((save_to_sqlite noStoreErr now2
        (save_to_sqlite noStoreErr now1 db [r1] []).1 [r2] []).1.flows.countP
      (fun x => decide (flowKey x = flowKey row2))) = 1
    ∧ ((save_to_sqlite noStoreErr now2
        (save_to_sqlite noStoreErr now1 db [r1] []).1 [r2] []).1.flows.find?
      (fun x => decide (flowKey x = flowKey row2))) = Option.some row2 := by
  rw [save_healthy, save_healthy]
  simp only [applyAll, List.filterMap_cons, hm1, hm2, List.filterMap_nil, List.foldl_cons,
    List.foldl_nil, buildProfileRows, List.flatMap_nil]
  have h1 : (upsertFlowRow db.flows row1).countP
      (fun x => decide (flowKey x = flowKey row2)) = 1 :=
    upsertFlowRow_countP_self row1 (flowKey row2) hkey db.flows hdb
  constructor
  · exact upsertFlowRow_countP_self row2 (flowKey row2) rfl _ (le_of_eq h1)
  · exact upsertFlowRow_find_self row2 (flowKey row2) rfl _ (le_of_eq h1)

/-- Witness for C1 at a concrete pair of writes over an empty store. -/
theorem upsert_last_write_wins_witness :
    ((save_to_sqlite noStoreErr ("t2")
        (save_to_sqlite noStoreErr ("t1") { flows := [], profiles := [] }
          [{ code := ("600519"), exchange := ("SH"), date := Option.some ("2024-01-02"),
             close := PyVal.num 10, pct_chg := PyVal.vnone, main := PyVal.vnone,
             main_ratio := PyVal.vnone, ultra_large := PyVal.vnone,
             ultra_large_ratio := PyVal.vnone, large := PyVal.vnone,
             large_ratio := PyVal.vnone, medium := PyVal.vnone,
             medium_ratio := PyVal.vnone, small := PyVal.vnone,
             small_ratio := PyVal.vnone, name := Option.none }] []).1
        [{ code := ("600519"), exchange := ("SH"), date := Option.some ("2024-01-02"),
           close := PyVal.num 11, pct_chg := PyVal.vnone, main := PyVal.vnone,
           main_ratio := PyVal.vnone, ultra_large := PyVal.vnone,
           ultra_large_ratio := PyVal.vnone, large := PyVal.vnone,
           large_ratio := PyVal.vnone, medium := PyVal.vnone,
           medium_ratio := PyVal.vnone, small := PyVal.vnone,
           small_ratio := PyVal.vnone, name := Option.none }] []).1.flows.countP
      (fun x => decide (flowKey x = (("600519"), ("SH"), ("2024-01-02"))))) = 1
    ∧ ((save_to_sqlite noStoreErr ("t2")
        (save_to_sqlite noStoreErr ("t1") { flows := [], profiles := [] }
          [{ code := ("600519"), exchange := ("SH"), date := Option.some ("2024-01-02"),
             close := PyVal.num 10, pct_chg := PyVal.vnone, main := PyVal.vnone,
             main_ratio := PyVal.vnone, ultra_large := PyVal.vnone,
             ultra_large_ratio := PyVal.vnone, large := PyVal.vnone,
             large_ratio := PyVal.vnone, medium := PyVal.vnone,
             medium_ratio := PyVal.vnone, small := PyVal.vnone,
             small_ratio := PyVal.vnone, name := Option.none }] []).1
        [{ code := ("600519"), exchange := ("SH"), date := Option.some ("2024-01-02"),
           close := PyVal.num 11, pct_chg := PyVal.vnone, main := PyVal.vnone,
           main_ratio := PyVal.vnone, ultra_large := PyVal.vnone,
           ultra_large_ratio := PyVal.vnone, large := PyVal.vnone,
           large_ratio := PyVal.vnone, medium := PyVal.vnone,
           medium_ratio := PyVal.vnone, small := PyVal.vnone,
           small_ratio := PyVal.vnone, name := Option.none }] []).1.flows.find?
      (fun x => decide (flowKey x = (("600519"), ("SH"), ("2024-01-02")))))
      = Option.some
        { code := ("600519"), exchange := ("SH"), date := ("2024-01-02"),
          close := Option.some 11, pct_chg := Option.none, main := Option.none,
          main_ratio := Option.none, ultra_large := Option.none,
          ultra_large_ratio := Option.none, large := Option.none,
          large_ratio := Option.none, medium := Option.none,
          medium_ratio := Option.none, small := Option.none,
          small_ratio := Option.none, name := Option.none } :=
  upsert_last_write_wins ("t1") ("t2") { flows := [], profiles := [] }
    { code := ("600519"), exchange := ("SH"), date := Option.some ("2024-01-02"),
      close := PyVal.num 10, pct_chg := PyVal.vnone, main := PyVal.vnone,
      main_ratio := PyVal.vnone, ultra_large := PyVal.vnone,
      ultra_large_ratio := PyVal.vnone, large := PyVal.vnone,
      large_ratio := PyVal.vnone, medium := PyVal.vnone,
      medium_ratio := PyVal.vnone, small := PyVal.vnone,
      small_ratio := PyVal.vnone, name := Option.none }
    { code := ("600519"), exchange := ("SH"), date := Option.some ("2024-01-02"),
      close := PyVal.num 11, pct_chg := PyVal.vnone, main := PyVal.vnone,
      main_ratio := PyVal.vnone, ultra_large := PyVal.vnone,
      ultra_large_ratio := PyVal.vnone, large := PyVal.vnone,
      large_ratio := PyVal.vnone, medium := PyVal.vnone,
      medium_ratio := PyVal.vnone, small := PyVal.vnone,
      small_ratio := PyVal.vnone, name := Option.none }
    { code := ("600519"), exchange := ("SH"), date := ("2024-01-02"),
      close := Option.some 10, pct_chg := Option.none, main := Option.none,
      main_ratio := Option.none, ultra_large := Option.none,
      ultra_large_ratio := Option.none, large := Option.none,
      large_ratio := Option.none, medium := Option.none,
      medium_ratio := Option.none, small := Option.none,
      small_ratio := Option.none, name := Option.none }
    { code := ("600519"), exchange := ("SH"), date := ("2024-01-02"),
      close := Option.some 11, pct_chg := Option.none, main := Option.none,
      main_ratio := Option.none, ultra_large := Option.none,
      ultra_large_ratio := Option.none, large := Option.none,
      large_ratio := Option.none, medium := Option.none,
      medium_ratio := Option.none, small := Option.none,
      small_ratio := Option.none, name := Option.none }
    rfl rfl rfl (by simp [List.countP_nil])

/-! ## C9: the code-universe loader -/

lemma mem_insertUnique (x y : String) :
    ∀ l : List String, y ∈ insertUnique x l ↔ y = x ∨ y ∈ l := by
  intro l
  induction l with
  | nil => simp [insertUnique]
  | cons z zs ih =>
    rw [insertUnique]
    by_cases h1 : x < z
    · simp [h1]
    · rw [if_neg h1]
      by_cases h2 : x = z
      · rw [if_pos h2]
        subst h2
        simp only [List.mem_cons]
        tauto
      · rw [if_neg h2]
        simp only [List.mem_cons, ih]
        tauto

lemma sorted_insertUnique (x : String) :
    ∀ l : List String, List.Sorted (· < ·) l →
      List.Sorted (· < ·) (insertUnique x l) := by
  intro l
  induction l with
  | nil => intro _; simp [insertUnique]
  | cons z zs ih =>
    intro hs
    rw [List.sorted_cons] at hs
    rw [insertUnique]
    by_cases h1 : x < z
    · rw [if_pos h1, List.sorted_cons]
      constructor
      · intro b hb
        rcases List.mem_cons.mp hb with hb | hb
        · subst hb; exact h1
        · exact lt_trans h1 (hs.1 b hb)
      · rw [List.sorted_cons]
        exact hs
    · rw [if_neg h1]
      by_cases h2 : x = z
      · rw [if_pos h2, List.sorted_cons]
        exact hs
      · rw [if_neg h2, List.sorted_cons]
        constructor
        · intro b hb
          rcases (mem_insertUnique x b zs).mp hb with hb | hb
          · subst hb
            rcases lt_trichotomy b z with h | h | h
            · exact absurd h h1
            · exact absurd h h2
            · exact h
          · exact hs.1 b hb
        · exact ih hs.2

lemma sortedDedup_sorted (l : List String) :
    List.Sorted (· < ·) (sortedDedup l) := by
  induction l with
  | nil => simp [sortedDedup]
  | cons a l ih => exact sorted_insertUnique a (sortedDedup l) ih

lemma mem_sortedDedup (y : String) :
    ∀ l : List String, y ∈ sortedDedup l → y ∈ l := by
  intro l
  induction l with
  | nil => intro h; exact absurd h (List.not_mem_nil y)
  | cons a l ih =>
    intro h
    rcases (mem_insertUnique a y (sortedDedup l)).mp h with h | h
    · subst h; exact List.mem_cons_self _ _
    · exact List.mem_cons_of_mem a (ih h)

lemma mem_pageCodes (c : String) (page : List (Option String)) :
    c ∈ pageCodes page → c.length = 6 ∧ pyIsDigitStr c = true := by
  intro h
  rw [pageCodes, List.mem_filterMap] at h
  obtain ⟨it, _, hit⟩ := h
  cases it with
  | none => cases hit
  | some c0 =>
    have hit2 : (if (!c0.isEmpty && c0.length == 6 && pyIsDigitStr c0) = true
        then Option.some c0 else Option.none) = Option.some c := hit
    by_cases hcond : (!c0.isEmpty && c0.length == 6 && pyIsDigitStr c0) = true
    · rw [if_pos hcond] at hit2
      cases hit2
      simp only [Bool.and_eq_true, beq_iff_eq] at hcond
      exact ⟨hcond.1.2, hcond.2⟩
    · rw [if_neg hcond] at hit2
      cases hit2

lemma mem_collectPages (c : String) :
    ∀ (fuel : Nat) (pages : List (List (Option String))),
      c ∈ collectPages fuel pages → c.length = 6 ∧ pyIsDigitStr c = true := by
  intro fuel
  induction fuel with
  | zero =>
    intro pages h
    cases pages with
    | nil => cases h
    | cons p ps => cases h
  | succ f ih =>
    intro pages h
    cases pages with
    | nil => cases h
    | cons p ps =>
      rw [collectPages] at h
      by_cases hp : p.isEmpty = true
      · rw [if_pos hp] at h; cases h
      · rw [if_neg hp] at h
        rcases List.mem_append.mp h with h | h
        · exact mem_pageCodes c p h
        · exact ih ps h

/-- C9: whenever the code-universe loader does not serve from the cache file
(forced refresh, or a missing, malformed or empty cache), the returned list is
strictly ascending, duplicate-free, and every element is a 6-digit string;
a cached list that parses as a non-empty JSON array is returned as-is with no
such validation. -/
theorem fetch_all_stock_codes_spec :
    (∀ (forceRefresh : Bool) (cache : CacheRead) (pages : List (List (Option String))),
      (forceRefresh = true ∨ cacheServes cache = false) →
        List.Sorted (· < ·) (fetch_all_stock_codes forceRefresh cache pages)
        ∧ (fetch_all_stock_codes forceRefresh cache pages).Nodup
        ∧ ∀ c ∈ fetch_all_stock_codes forceRefresh cache pages,
            c.length = 6 ∧ pyIsDigitStr c = true)
    ∧ (∀ (xs : List String) (pages : List (List (Option String))),
        xs ≠ [] → fetch_all_stock_codes false (CacheRead.parsed xs) pages = xs) := by
  constructor
  · intro forceRefresh cache pages h
    have hfresh : fetch_all_stock_codes forceRefresh cache pages
        = sortedDedup (collectPages 200 pages) := by
      rcases h with h | h
      · subst h; rfl
      · rw [fetch_all_stock_codes, h]
        simp
    rw [hfresh]
    refine ⟨sortedDedup_sorted _, ?_, ?_⟩
    · exact (sortedDedup_sorted _).imp (fun hlt => ne_of_lt hlt)
    · intro c hc
      exact mem_collectPages c 200 pages (mem_sortedDedup c _ hc)
  · intro xs pages hxs
    rw [fetch_all_stock_codes]
    have hserve : cacheServes (CacheRead.parsed xs) = true := by
      simp [cacheServes, List.isEmpty_eq_true, hxs]
    rw [hserve]
    rfl

/-- Witness for C9: a forced refresh over one live page, and a junk-filled
non-empty cache served verbatim. -/
theorem fetch_all_stock_codes_spec_witness :
    (List.Sorted (· < ·)
        (fetch_all_stock_codes true CacheRead.missing [[Option.some ("600519")]])
      ∧ (fetch_all_stock_codes true CacheRead.missing [[Option.some ("600519")]]).Nodup
      ∧ ∀ c ∈ fetch_all_stock_codes true CacheRead.missing [[Option.some ("600519")]],
          c.length = 6 ∧ pyIsDigitStr c = true)
    ∧ fetch_all_stock_codes false (CacheRead.parsed [("zz"), ("zz")]) []
        = [("zz"), ("zz")] :=
  ⟨fetch_all_stock_codes_spec.1 true CacheRead.missing [[Option.some ("600519")]]
      (Or.inl rfl),
   fetch_all_stock_codes_spec.2 [("zz"), ("zz")] [] (by simp)⟩

/-! ## C7: the rate limiter admits at most `max_calls` per rolling window -/

lemma filter_window_twice (adm : List ℚ) (per m now : ℚ) (hmn : m ≤ now) :
    (adm.filter (fun t => decide (m - t < per))).filter
        (fun t => decide (now - t < per))
      = adm.filter (fun t => decide (now - t < per)) := by
  rw [List.filter_filter]
  apply List.filter_congr
  intro a _
  by_cases h : now - a < per
  · have h2 : m - a < per := lt_of_le_of_lt (by linarith) h
    simp [h, h2]
  · simp [h]

lemma countP_window_le_recent (adm : List ℚ) (per now y : ℚ)
    (hwin : y ≤ now ∧ now < y + per) :
    adm.countP (fun t => decide (y ≤ t ∧ t < y + per))
      ≤ adm.countP (fun t => decide (now - t < per)) := by
  apply List.countP_mono_left
  intro a _ ha
  have ha2 : y ≤ a ∧ a < y + per := of_decide_eq_true ha
  have : now - a < per := by linarith [hwin.2, ha2.1]
  exact decide_eq_true this

lemma rlRun_window_bound (maxC : Nat) (per : ℚ) (hper : 0 < per) :
    ∀ (polls adm : List ℚ) (m : ℚ),
      List.Sorted (· ≤ ·) polls →
      (∀ p ∈ polls, m ≤ p) →
      (∀ a ∈ adm, a ≤ m) →
      (∀ y : ℚ, adm.countP (fun t => decide (y ≤ t ∧ t < y + per)) ≤ maxC) →
      ∀ y : ℚ,
        ((adm ++ rlRun maxC per (adm.filter (fun t => decide (m - t < per))) polls).countP
          (fun t => decide (y ≤ t ∧ t < y + per))) ≤ maxC := by
  intro polls
  induction polls with
  | nil =>
    intro adm m _ _ _ hcnt y
    simpa [rlRun] using hcnt y
  | cons now rest ih =>
    intro adm m hsort hm hadm hcnt y
    have hmnow : m ≤ now := hm now (List.mem_cons_self _ _)
    have hsplit := List.sorted_cons.mp hsort
    rw [rlRun, filter_window_twice adm per m now hmnow]
    by_cases hlen :
        (adm.filter (fun t => decide (now - t < per))).length < maxC
    · rw [if_pos hlen]
      have hnoww : now - now < per := by linarith
      have hkept : adm.filter (fun t => decide (now - t < per)) ++ [now]
          = (adm ++ [now]).filter (fun t => decide (now - t < per)) := by
        rw [List.filter_append]
        simp [List.filter_cons, hnoww, hper]
      rw [hkept]
      have hadm2 : ∀ a ∈ adm ++ [now], a ≤ now := by
        intro a ha
        rcases List.mem_append.mp ha with h | h
        · exact le_trans (hadm a h) hmnow
        · rw [List.mem_singleton] at h
          exact le_of_eq h
      have hcnt2 : ∀ z : ℚ,
          (adm ++ [now]).countP (fun t => decide (z ≤ t ∧ t < z + per)) ≤ maxC := by
        intro z
        rw [List.countP_append]
        by_cases hwin : z ≤ now ∧ now < z + per
        · have h1 : adm.countP (fun t => decide (z ≤ t ∧ t < z + per))
              ≤ adm.countP (fun t => decide (now - t < per)) :=
            countP_window_le_recent adm per now z hwin
          rw [List.countP_eq_length_filter (fun t => decide (now - t < per)) adm] at h1
          have h2 : List.countP (fun t => decide (z ≤ t ∧ t < z + per)) [now] = 1 := by
            simp [List.countP_cons, hwin]
          omega
        · have h2 : List.countP (fun t => decide (z ≤ t ∧ t < z + per)) [now] = 0 := by
            simp [List.countP_cons, hwin]
          have h3 := hcnt z
          omega
      have hgoal := ih (adm ++ [now]) now hsplit.2 hsplit.1 hadm2 hcnt2 y
      calc ((adm ++ now :: rlRun maxC per
              ((adm ++ [now]).filter (fun t => decide (now - t < per))) rest).countP
            (fun t => decide (y ≤ t ∧ t < y + per)))
          = (((adm ++ [now]) ++ rlRun maxC per
              ((adm ++ [now]).filter (fun t => decide (now - t < per))) rest).countP
            (fun t => decide (y ≤ t ∧ t < y + per))) := by
            rw [List.append_assoc]
            rfl
        _ ≤ maxC := hgoal
    · rw [if_neg hlen]
      exact ih adm now hsplit.2 hsplit.1
        (fun a ha => le_trans (hadm a ha) hmnow) hcnt y

/-- C7: the rate limiter with `max_calls = 2` and `period = 1` second, driven
by any nondecreasing clock sequence, admits at most 2 calls inside any rolling
1-second window. -/
theorem rate_limiter_rolling_window (polls : List ℚ)
    (hsort : List.Sorted (· ≤ ·) polls) (y : ℚ) :
    ((rlRun 2 1 [] polls).countP (fun t => decide (y ≤ t ∧ t < y + 1))) ≤ 2 := by
  cases polls with
  | nil => simp [rlRun]
  | cons now rest =>
    have hm : ∀ p ∈ now :: rest, now ≤ p := by
      intro p hp
      rcases List.mem_cons.mp hp with h | h
      · exact le_of_eq h.symm
      · exact (List.sorted_cons.mp hsort).1 p h
    have h := rlRun_window_bound 2 1 (by norm_num) (now :: rest) [] now hsort hm
      (by intro a ha; cases ha) (by intro z; simp) y
    simpa using h

/-- Witness for C7: four pending polls at times 0, 0, 0 and 2 against the
window starting at 0. -/
theorem rate_limiter_rolling_window_witness :
    ((rlRun 2 1 [] [0, 0, 0, 2]).countP
      (fun t => decide ((0 : ℚ) ≤ t ∧ t < 0 + 1))) ≤ 2 :=
  rate_limiter_rolling_window [0, 0, 0, 2]
    (by norm_num [List.sorted_cons]) 0

/-! ## C3: exchange inference from the numeric head -/

lemma bool_eq_false_of_ne_true {b : Bool} (h : ¬ b = true) : b = false := by
  cases b
  · rfl
  · exact absurd rfl h

lemma inferExchange_eq_amended (c : PyStr) :
    inferExchange c = amendedExchange c := by
  rw [inferExchange, amendedExchange]
  by_cases hsh : pyStartsWithAny c shHeads = true
  · rw [if_pos hsh, if_pos hsh]
  · have hsh2 : pyStartsWithAny c shHeads = false := bool_eq_false_of_ne_true hsh
    rw [if_neg hsh, if_neg hsh]
    have h688 : pyStartsWith c ['6','8','8'] = false := by
      rw [pyStartsWithAny, shHeads] at hsh2
      simp only [List.any_cons, List.any_nil, Bool.or_eq_false_iff] at hsh2
      exact hsh2.2.2.2.2.1
    by_cases hsz : pyStartsWithAny c szHeads = true
    · rw [if_pos hsz, if_pos hsz]
    · rw [if_neg hsz, if_neg hsz]
      have hbj : pyStartsWithAny c bjHeads = pyStartsWithAny c amendedBjHeads := by
        rw [pyStartsWithAny, pyStartsWithAny, bjHeads, amendedBjHeads]
        simp only [List.any_cons, List.any_nil, h688]
        cases pyStartsWith c ['4','3','0'] <;> rfl
      rw [hbj]

lemma inferExchange_cases (c : PyStr) :
    inferExchange c = exSH ∨ inferExchange c = exSZ ∨ inferExchange c = exBJ := by
  rw [inferExchange]
  by_cases h1 : pyStartsWithAny c shHeads = true
  · rw [if_pos h1]; exact Or.inl rfl
  · rw [if_neg h1]
    by_cases h2 : pyStartsWithAny c szHeads = true
    · rw [if_pos h2]; exact Or.inr (Or.inl rfl)
    · rw [if_neg h2]
      by_cases h3 : pyStartsWithAny c bjHeads = true
      · rw [if_pos h3]; exact Or.inr (Or.inr rfl)
      · rw [if_neg h3]; exact Or.inl rfl

lemma takeRight_length_of_le (n : Nat) (s : PyStr) (h : n ≤ s.length) :
    (takeRight n s).length = n := by
  rw [takeRight, List.length_drop]
  omega

lemma parseStockPhase1_bare (raw : PyStr)
    (hdot : pyContains raw '.' = false)
    (hsh : pyStartsWith (pyLower raw) ['s','h'] = false)
    (hsz : pyStartsWith (pyLower raw) ['s','z'] = false)
    (hbj : pyStartsWith (pyLower raw) ['b','j'] = false)
    (hdig : pyIsDigit (takeRight 6 raw) = true) :
    parseStockPhase1 raw
      = Except.ok (takeRight 6 raw, inferExchange (takeRight 6 raw)) := by
  rw [parseStockPhase1]
  rw [hdot, hsh, hsz, hbj, hdig]
  rfl

lemma parse_stock_code_bare (s : PyStr)
    (hdot : pyContains (pyStrip s) '.' = false)
    (hsh : pyStartsWith (pyLower (pyStrip s)) ['s','h'] = false)
    (hsz : pyStartsWith (pyLower (pyStrip s)) ['s','z'] = false)
    (hbj : pyStartsWith (pyLower (pyStrip s)) ['b','j'] = false)
    (hdig : pyIsDigit (takeRight 6 (pyStrip s)) = true)
    (hlen : 6 ≤ (pyStrip s).length) :
    parse_stock_code s
      = Except.ok (takeRight 6 (pyStrip s),
          marketOf (inferExchange (takeRight 6 (pyStrip s))),
          inferExchange (takeRight 6 (pyStrip s))) := by
  have hne : (pyStrip s).isEmpty = false := by
    cases h : pyStrip s with
    | nil => rw [h] at hlen; cases hlen
    | cons a l => rfl
  rw [parse_stock_code]
  rw [hne]
  simp only [Bool.false_eq_true, if_false]
  rw [parseStockPhase1_bare (pyStrip s) hdot hsh hsz hbj hdig, parseStockFinish]
  have hstocklen : (takeRight 6 (pyStrip s)).length = 6 :=
    takeRight_length_of_le 6 (pyStrip s) hlen
  have hstockne : (takeRight 6 (pyStrip s)).isEmpty = false := by
    cases h : takeRight 6 (pyStrip s) with
    | nil => rw [h] at hstocklen; cases hstocklen
    | cons a l => rfl
  have hval : ((takeRight 6 (pyStrip s)).isEmpty
      || !((takeRight 6 (pyStrip s)).length == 6)
      || !pyIsDigit (takeRight 6 (pyStrip s))) = false := by
    rw [hstockne, hstocklen, hdig]
    rfl
  rw [hval]
  simp only [Bool.false_eq_true, if_false]
  have hex : (inferExchange (takeRight 6 (pyStrip s)) == exSH
      || inferExchange (takeRight 6 (pyStrip s)) == exSZ
      || inferExchange (takeRight 6 (pyStrip s)) == exBJ) = true := by
    rcases inferExchange_cases (takeRight 6 (pyStrip s)) with h | h | h <;>
      rw [h] <;> rfl
  rw [hex]
  rfl

/-- C3 counterexample: `832000` has an `830s` head, which the claim maps to
BJ, but the normalizer returns SH for it (the source's BJ tuple lists only
830, 831, 833, 835, 836, 838, 839 among the 83x heads). -/
theorem parse_830s_counterexample :
    parse_stock_code ("832000".toList)
      = Except.ok (("832000".toList), (['s','h'], ['S','H']))
    ∧ ¬ ((['S','H'] : PyStr) = ['B','J']) := by
  constructor
  · rfl
  · decide

/-- C3 amended: for every input whose trailing 6 characters are digits and
that carries no dot suffix and no sh/sz/bj prefix, the inferred exchange is:
600/601/603/605/688 → SH; 000/001/002/003/300/301 → SZ;
430/830/831/833/835/836/838/839/870/871/872 → BJ; every other head
(including 832, 834, 837 and 873-879) defaults to SH. -/
theorem parse_infers_exchange_amended (s : PyStr)
    (hdot : pyContains (pyStrip s) '.' = false)
    (hsh : pyStartsWith (pyLower (pyStrip s)) ['s','h'] = false)
    (hsz : pyStartsWith (pyLower (pyStrip s)) ['s','z'] = false)
    (hbj : pyStartsWith (pyLower (pyStrip s)) ['b','j'] = false)
    (hdig : pyIsDigit (takeRight 6 (pyStrip s)) = true)
    (hlen : 6 ≤ (pyStrip s).length) :
    parse_stock_code s
      = Except.ok (takeRight 6 (pyStrip s),
          marketOf (amendedExchange (takeRight 6 (pyStrip s))),
          amendedExchange (takeRight 6 (pyStrip s))) := by
  rw [parse_stock_code_bare s hdot hsh hsz hbj hdig hlen,
    inferExchange_eq_amended]

/-- Witness for the amended C3 theorem at the bare code `830000`. -/
theorem parse_infers_exchange_amended_witness :
    parse_stock_code ("830000".toList)
      = Except.ok (takeRight 6 (pyStrip ("830000".toList)),
          marketOf (amendedExchange (takeRight 6 (pyStrip ("830000".toList)))),
          amendedExchange (takeRight 6 (pyStrip ("830000".toList)))) :=
  parse_infers_exchange_amended ("830000".toList) rfl rfl rfl rfl rfl
    (by decide)

/-! ## C6: round-trip of the normalizer -/

lemma digit_char_facts (c : Char) (h : c ∈ digitChars) :
    c.isDigit = true ∧ c.isWhitespace = false ∧ ¬ c = '.'
    ∧ Char.toLower c = c ∧ ¬ c = 's' ∧ ¬ c = 'b' := by
  fin_cases h <;> refine ⟨?_, ?_, ?_, ?_, ?_, ?_⟩ <;> decide

lemma dropWhile_no_match (p : Char → Bool) :
    ∀ l : PyStr, (∀ c ∈ l, p c = false) → l.dropWhile p = l := by
  intro l h
  cases l with
  | nil => rfl
  | cons a rest =>
    rw [List.dropWhile_cons, h a (List.mem_cons_self _ _)]
    simp

lemma strip_of_no_ws (l : PyStr) (h : ∀ c ∈ l, c.isWhitespace = false) :
    pyStrip l = l := by
  rw [pyStrip, dropWhile_no_match Char.isWhitespace l h,
    dropWhile_no_match Char.isWhitespace l.reverse
      (fun c hc => h c (List.mem_reverse.mp hc)),
    List.reverse_reverse]

lemma contains_false (l : PyStr) (ch : Char) (h : ∀ c ∈ l, ¬ c = ch) :
    pyContains l ch = false := by
  rw [pyContains]
  rw [List.any_eq_false]
  intro c hc
  simp [h c hc]

lemma lower_of_digits (l : PyStr) (h : ∀ c ∈ l, c ∈ digitChars) :
    pyLower l = l := by
  rw [pyLower]
  induction l with
  | nil => rfl
  | cons a rest ih =>
    rw [List.map_cons, (digit_char_facts a (h a (List.mem_cons_self _ _))).2.2.2.1,
      ih (fun c hc => h c (List.mem_cons_of_mem a hc))]

lemma startsWith_letter_false (l : PyStr) (hd : ∀ c ∈ l, c ∈ digitChars)
    (a b : Char) (ha : a ∉ digitChars) : pyStartsWith l [a, b] = false := by
  cases l with
  | nil => rfl
  | cons c0 rest =>
    rw [pyStartsWith]
    have hne : ¬ a = c0 := fun hh => ha (hh ▸ hd c0 (List.mem_cons_self _ _))
    simp [hne]

lemma splitDot_no_dot : ∀ l : PyStr, (∀ c ∈ l, ¬ c = '.') → splitDot l = [l] := by
  intro l
  induction l with
  | nil => intro _; rfl
  | cons a rest ih =>
    intro h
    rw [splitDot]
    have ha : ¬ a = '.' := h a (List.mem_cons_self _ _)
    rw [if_neg ha, ih (fun c hc => h c (List.mem_cons_of_mem a hc))]

lemma splitDot_append (s E : PyStr) (hs : ∀ c ∈ s, ¬ c = '.')
    (hE : ∀ c ∈ E, ¬ c = '.') : splitDot (s ++ '.' :: E) = [s, E] := by
  induction s with
  | nil =>
    rw [List.nil_append, splitDot, if_pos rfl, splitDot_no_dot E hE]
  | cons a rest ih =>
    rw [List.cons_append, splitDot]
    have ha : ¬ a = '.' := hs a (List.mem_cons_self _ _)
    rw [if_neg ha, ih (fun c hc => hs c (List.mem_cons_of_mem a hc))]

lemma takeRight_all (n : Nat) (s : PyStr) (h : s.length ≤ n) :
    takeRight n s = s := by
  rw [takeRight, Nat.sub_eq_zero_of_le h, List.drop_zero]

lemma isEmpty_false_of_ne_nil (l : PyStr) (h : l ≠ []) : l.isEmpty = false := by
  cases l with
  | nil => exact absurd rfl h
  | cons a rest => rfl

lemma pyIsDigit_of_digits (l : PyStr) (hne : l ≠ [])
    (h : ∀ c ∈ l, c ∈ digitChars) : pyIsDigit l = true := by
  rw [pyIsDigit, isEmpty_false_of_ne_nil l hne]
  rw [Bool.not_false, Bool.true_and, List.all_eq_true]
  exact fun c hc => (digit_char_facts c (h c hc)).1

lemma parse_digit6 (s : PyStr) (h6 : s.length = 6)
    (hd : ∀ c ∈ s, c ∈ digitChars) :
    parse_stock_code s
      = Except.ok (s, marketOf (inferExchange s), inferExchange s) := by
  have hsw : ∀ c ∈ s, c.isWhitespace = false :=
    fun c hc => (digit_char_facts c (hd c hc)).2.1
  have hstrip : pyStrip s = s := strip_of_no_ws s hsw
  have hlower : pyLower s = s := lower_of_digits s hd
  have htr : takeRight 6 s = s := takeRight_all 6 s (le_of_eq h6)
  have hne : s ≠ [] := by
    intro hnil
    rw [hnil] at h6
    cases h6
  have hbare := parse_stock_code_bare s
    (by rw [hstrip]
        exact contains_false s '.' (fun c hc => (digit_char_facts c (hd c hc)).2.2.1))
    (by rw [hstrip, hlower]
        exact startsWith_letter_false s hd 's' 'h' (by decide))
    (by rw [hstrip, hlower]
        exact startsWith_letter_false s hd 's' 'z' (by decide))
    (by rw [hstrip, hlower]
        exact startsWith_letter_false s hd 'b' 'j' (by decide))
    (by rw [hstrip, htr]
        exact pyIsDigit_of_digits s hne hd)
    (by rw [hstrip, h6])
  rw [hstrip, htr] at hbare
  exact hbare

lemma parse_code_dot_exchange (s E : PyStr) (h6 : s.length = 6)
    (hd : ∀ c ∈ s, c ∈ digitChars)
    (hE : E = exSH ∨ E = exSZ ∨ E = exBJ) :
    parse_stock_code (s ++ '.' :: E) = Except.ok (s, marketOf E, E) := by
  have hEw : ∀ c ∈ E, c.isWhitespace = false := by
    rcases hE with h | h | h <;> subst h <;> decide
  have hEd : ∀ c ∈ E, ¬ c = '.' := by
    rcases hE with h | h | h <;> subst h <;> decide
  have hEup : pyUpper E = E := by
    rcases hE with h | h | h <;> subst h <;> rfl
  have hEval : (E == exSH || E == exSZ || E == exBJ) = true := by
    rcases hE with h | h | h <;> subst h <;> rfl
  have hsw : ∀ c ∈ s, c.isWhitespace = false :=
    fun c hc => (digit_char_facts c (hd c hc)).2.1
  have hsd : ∀ c ∈ s, ¬ c = '.' :=
    fun c hc => (digit_char_facts c (hd c hc)).2.2.1
  have hne : s ≠ [] := by
    intro hnil
    rw [hnil] at h6
    cases h6
  have hstrip : pyStrip (s ++ '.' :: E) = s ++ '.' :: E := by
    apply strip_of_no_ws
    intro c hc
    rcases List.mem_append.mp hc with h | h
    · exact hsw c h
    · rcases List.mem_cons.mp h with h | h
      · subst h; rfl
      · exact hEw c h
  have hnil2 : (s ++ '.' :: E).isEmpty = false := by
    apply isEmpty_false_of_ne_nil
    intro hcontra
    exact hne (List.append_eq_nil.mp hcontra).1
  have hcontains : pyContains (s ++ '.' :: E) '.' = true := by
    rw [pyContains, List.any_append]
    simp [List.any_cons]
  have hsplit : splitDot (s ++ '.' :: E) = [s, E] := splitDot_append s E hsd hEd
  have hphase : parseStockPhase1 (s ++ '.' :: E)
      = Except.ok (takeRight 6 s, pyUpper E) := by
    rw [parseStockPhase1, hcontains]
    simp only [if_true]
    rw [hsplit]
  rw [parse_stock_code, hstrip, hnil2]
  simp only [Bool.false_eq_true, if_false]
  rw [hphase, hEup, takeRight_all 6 s (le_of_eq h6), parseStockFinish]
  have hval : (s.isEmpty || !(s.length == 6) || !pyIsDigit s) = false := by
    rw [isEmpty_false_of_ne_nil s hne, h6, pyIsDigit_of_digits s hne hd]
    rfl
  rw [hval]
  simp only [Bool.false_eq_true, if_false]
  rw [hEval]
  rfl

/-- C6: normalizing a valid 6-digit code with a recognized exchange head,
re-serializing the result as `code.EXCHANGE`, and normalizing again yields
the same `(code, market, exchange)` identifier as the first normalization. -/
theorem normalize_roundtrip (s : PyStr) (h6 : s.length = 6)
    (hd : ∀ c ∈ s, c ∈ digitChars)
    (_hrec : pyStartsWithAny s recognizedHeads = true) :
    ∀ stock mkt exch, parse_stock_code s = Except.ok (stock, mkt, exch) →
      parse_stock_code (stock ++ '.' :: exch) = Except.ok (stock, mkt, exch) := by
  intro stock mkt exch hok
  rw [parse_digit6 s h6 hd] at hok
  have h := Except.ok.inj hok
  rw [Prod.mk.injEq, Prod.mk.injEq] at h
  obtain ⟨h1, h2, h3⟩ := h
  subst h1
  subst h2
  subst h3
  exact parse_code_dot_exchange s (inferExchange s) h6 hd
    (inferExchange_cases s)

/-- Witness for C6 at the concrete code `600519`. -/
theorem normalize_roundtrip_witness :
    parse_stock_code (("600519".toList) ++ '.' :: (['S','H']))
      = Except.ok (("600519".toList), (['s','h'], ['S','H'])) :=
  normalize_roundtrip ("600519".toList) (by decide) (by decide) (by decide)
    ("600519".toList) ['s','h'] ['S','H'] rfl

/-! ## C2: partial-failure semantics of the batch run -/

lemma workerAttempt_ok (env : FetchEnv) (code : String) (attempt : Nat)
    (rs : List FlowInput) (t : PyStr × PyStr × PyStr)
    (hf : env.fetchFlow code attempt = Except.ok rs)
    (hp : parse_stock_code code.toList = Except.ok t) :
    workerAttempt env code attempt
      = Except.ok (enrichFlows env code rs,
          (t.1.asString, t.2.2.asString, env.profileOf code)) := by
  rw [workerAttempt, hf, hp]
  rfl

lemma workerAttempt_err (env : FetchEnv) (code : String) (attempt : Nat)
    (e : String) (hf : env.fetchFlow code attempt = Except.error e) :
    workerAttempt env code attempt = Except.error e := by
  rw [workerAttempt, hf]

lemma runWorker_good (env : FetchEnv) (code : String) (date : Option String)
    (rs : List FlowInput) (t : PyStr × PyStr × PyStr)
    (hf : env.fetchFlow code 0 = Except.ok rs)
    (hp : parse_stock_code code.toList = Except.ok t) :
    runWorker env code date
      = workerSuccess code date (enrichFlows env code rs)
          (t.1.asString, t.2.2.asString, env.profileOf code) [] 1 := by
  rw [runWorker, workerAttempt_ok env code 0 rs t hf hp]

lemma runWorker_bad (env : FetchEnv) (code : String) (date : Option String)
    (hfail : ∀ n, ∃ e, env.fetchFlow code n = Except.error e) :
    ∃ m, runWorker env code date
      = { flows := []
          profileEntry := Option.none
          log := [LogEntry.failed code date m]
          sleeps := [1, 2, 3]
          attemptsUsed := 3 } := by
  obtain ⟨e0, h0⟩ := hfail 0
  obtain ⟨e1, h1⟩ := hfail 1
  obtain ⟨e2, h2⟩ := hfail 2
  refine ⟨e2, ?_⟩
  rw [runWorker, workerAttempt_err env code 0 e0 h0,
    workerAttempt_err env code 1 e1 h1, workerAttempt_err env code 2 e2 h2]

lemma append_of_isEmpty_branch (a l : List FlowInput) :
    (if l.isEmpty then a else a ++ l) = a ++ l := by
  cases l with
  | nil => simp
  | cons x xs => rfl

lemma failedCodes_append (a b : List LogEntry) :
    failedCodes (a ++ b) = failedCodes a ++ failedCodes b := by
  rw [failedCodes, failedCodes, failedCodes, List.filterMap_append]

lemma failedCodes_noData_branch (c : String) (date : Option String)
    (l : List FlowInput) :
    failedCodes (if l.isEmpty then [LogEntry.noData c date] else []) = [] := by
  cases l.isEmpty with
  | true => rfl
  | false => rfl

lemma gatherStep_good (env : FetchEnv) (date : Option String) (acc : RunOut)
    (code : String) (rs : List FlowInput) (t : PyStr × PyStr × PyStr)
    (hf : env.fetchFlow code 0 = Except.ok rs)
    (hp : parse_stock_code code.toList = Except.ok t) :
    gatherStep env date acc code
      = { flows := acc.flows ++ enrichFlows env code rs
          profileMap := upsertProfileMap acc.profileMap
            (t.1.asString, t.2.2.asString) (env.profileOf code)
          log := acc.log ++ (if (enrichFlows env code rs).isEmpty
            then [LogEntry.noData code date] else []) } := by
  rw [gatherStep, runWorker_good env code date rs t hf hp, workerSuccess]
  rw [append_of_isEmpty_branch]

lemma gather_all_good (env : FetchEnv) (date : Option String)
    (recs : String → List FlowInput) :
    ∀ (codes : List String) (acc : RunOut),
      (∀ c ∈ codes, env.fetchFlow c 0 = Except.ok (recs c)) →
      (∀ c ∈ codes, ∃ t, parse_stock_code c.toList = Except.ok t) →
      (codes.foldl (gatherStep env date) acc).flows
          = acc.flows ++ codes.flatMap (fun c => enrichFlows env c (recs c))
      ∧ failedCodes ((codes.foldl (gatherStep env date) acc).log)
          = failedCodes acc.log := by
  intro codes
  induction codes with
  | nil =>
    intro acc _ _
    simp [List.foldl]
  | cons c cs ih =>
    intro acc hok hparse
    obtain ⟨t, ht⟩ := hparse c (List.mem_cons_self _ _)
    have hstep := gatherStep_good env date acc c (recs c) t
      (hok c (List.mem_cons_self _ _)) ht
    have hih := ih (gatherStep env date acc c)
      (fun x hx => hok x (List.mem_cons_of_mem c hx))
      (fun x hx => hparse x (List.mem_cons_of_mem c hx))
    rw [List.foldl_cons]
    constructor
    · rw [hih.1, hstep]
      simp [List.flatMap_cons, List.append_assoc]
    · rw [hih.2, hstep]
      simp only [failedCodes_append, failedCodes_noData_branch, List.append_nil]

lemma gather_one_bad (env : FetchEnv) (date : Option String) (b : String)
    (recs : String → List FlowInput) :
    ∀ (codes : List String) (acc : RunOut), codes.Nodup → b ∈ codes →
      (∀ n, ∃ e, env.fetchFlow b n = Except.error e) →
      (∀ c ∈ codes, ¬ c = b → env.fetchFlow c 0 = Except.ok (recs c)) →
      (∀ c ∈ codes, ¬ c = b → ∃ t, parse_stock_code c.toList = Except.ok t) →
      (codes.foldl (gatherStep env date) acc).flows
          = acc.flows ++ (codes.filter (fun c => !(c == b))).flatMap
              (fun c => enrichFlows env c (recs c))
      ∧ failedCodes ((codes.foldl (gatherStep env date) acc).log)
          = failedCodes acc.log ++ [b] := by
  intro codes
  induction codes with
  | nil =>
    intro acc _ hb
    exact absurd hb (List.not_mem_nil b)
  | cons c cs ih =>
    intro acc hnodup hb hfail hok hparse
    by_cases hc : c = b
    · subst hc
      obtain ⟨m, hw⟩ := runWorker_bad env c date hfail
      have hstep : gatherStep env date acc c
          = { flows := acc.flows
              profileMap := acc.profileMap
              log := acc.log ++ [LogEntry.failed c date m] } := by
        rw [gatherStep, hw]
        rfl
      have hnotin : c ∉ cs := (List.nodup_cons.mp hnodup).1
      have hcs_ok : ∀ x ∈ cs, env.fetchFlow x 0 = Except.ok (recs x) := by
        intro x hx
        have hxb : ¬ x = c := fun hxb => hnotin (hxb ▸ hx)
        exact hok x (List.mem_cons_of_mem c hx) hxb
      have hcs_parse : ∀ x ∈ cs, ∃ t, parse_stock_code x.toList = Except.ok t := by
        intro x hx
        have hxb : ¬ x = c := fun hxb => hnotin (hxb ▸ hx)
        exact hparse x (List.mem_cons_of_mem c hx) hxb
      have hgood := gather_all_good env date recs cs
        { flows := acc.flows, profileMap := acc.profileMap,
          log := acc.log ++ [LogEntry.failed c date m] } hcs_ok hcs_parse
      rw [List.foldl_cons, hstep]
      have hfilter : (c :: cs).filter (fun x => !(x == c)) = cs := by
        rw [List.filter_cons]
        simp only [beq_self_eq_true, Bool.not_true, Bool.false_eq_true, if_false]
        rw [List.filter_eq_self]
        intro x hx
        have hxb : ¬ x = c := fun hxb => hnotin (hxb ▸ hx)
        simp [hxb]
      rw [hfilter]
      refine ⟨hgood.1, ?_⟩
      rw [hgood.2, failedCodes_append]
      rfl
    · obtain ⟨t, ht⟩ := hparse c (List.mem_cons_self _ _) hc
      have hstep := gatherStep_good env date acc c (recs c) t
        (hok c (List.mem_cons_self _ _) hc) ht
      have hbcs : b ∈ cs := by
        rcases List.mem_cons.mp hb with h | h
        · exact absurd h.symm hc
        · exact h
      have hih := ih (gatherStep env date acc c) (List.nodup_cons.mp hnodup).2
        hbcs hfail
        (fun x hx => hok x (List.mem_cons_of_mem c hx))
        (fun x hx => hparse x (List.mem_cons_of_mem c hx))
      rw [List.foldl_cons]
      have hfilter : (c :: cs).filter (fun x => !(x == b))
          = c :: cs.filter (fun x => !(x == b)) := by
        rw [List.filter_cons]
        simp [hc]
      constructor
      · rw [hih.1, hstep, hfilter]
        simp [List.flatMap_cons, List.append_assoc]
      · rw [hih.2, hstep]
        simp only [failedCodes_append, failedCodes_noData_branch, List.append_nil]

/-- C2: in a batch of distinct symbols where exactly one symbol's fetch
always fails, the run still completes with the records of the other symbols,
the failing symbol is reported as the only per-symbol failure in the log (not
mixed into the success list), and its worker used 3 attempts with the linear
backoff sleeps 1 s, 2 s, 3 s before giving up, contributing no rows. -/
theorem batch_partial_failure (env : FetchEnv) (codes : List String) (b : String)
    (date : Option String) (recs : String → List FlowInput)
    (hnodup : codes.Nodup) (hb : b ∈ codes)
    (hfail : ∀ n, ∃ e, env.fetchFlow b n = Except.error e)
    (hok : ∀ c ∈ codes, ¬ c = b → env.fetchFlow c 0 = Except.ok (recs c))
    (hparse : ∀ c ∈ codes, ¬ c = b → ∃ t, parse_stock_code c.toList = Except.ok t) :
    (run_for_date_collect env codes date).flows
        = (codes.filter (fun c => !(c == b))).flatMap
            (fun c => enrichFlows env c (recs c))
    ∧ failedCodes ((run_for_date_collect env codes date).log) = [b]
    ∧ (runWorker env b date).flows = []
    ∧ (runWorker env b date).attemptsUsed = 3
    ∧ (runWorker env b date).sleeps = [1, 2, 3] := by
  have h := gather_one_bad env date b recs codes
    { flows := [], profileMap := [], log := [] } hnodup hb hfail hok hparse
  obtain ⟨m, hw⟩ := runWorker_bad env b date hfail
  refine ⟨?_, ?_, ?_, ?_, ?_⟩
  · rw [run_for_date_collect, h.1]
    rfl
  · rw [run_for_date_collect, h.2]
    rfl
  · rw [hw]
  · rw [hw]
  · rw [hw]

/-- Witness for C2: a two-symbol batch in which every fetch of `000001`
raises and `600519` succeeds with no rows. -/
theorem batch_partial_failure_witness :
    (run_for_date_collect envTwoSymbols [("600519"), ("000001")] Option.none).flows
        = ([("600519"), ("000001")].filter (fun c => !(c == ("000001")))).flatMap
            (fun c => enrichFlows envTwoSymbols c [])
    ∧ failedCodes
        ((run_for_date_collect envTwoSymbols [("600519"), ("000001")] Option.none).log)
        = [("000001")]
    ∧ (runWorker envTwoSymbols ("000001") Option.none).flows = []
    ∧ (runWorker envTwoSymbols ("000001") Option.none).attemptsUsed = 3
    ∧ (runWorker envTwoSymbols ("000001") Option.none).sleeps = [1, 2, 3] :=
  batch_partial_failure envTwoSymbols [("600519"), ("000001")] ("000001")
    Option.none (fun _ => []) (by decide) (by decide)
    (fun _ => ⟨("boom"), rfl⟩)
    (by
      intro c hc hne
      fin_cases hc
      · rfl
      · exact absurd rfl hne)
    (by
      intro c hc hne
      fin_cases hc
      · exact ⟨_, rfl⟩
      · exact absurd rfl hne)

end MyStock
